import Mathlib

/-!
Verification of the mock git server in `porch/repository/pkg/git/testing.go`.

Go strings are modelled as byte/character lists (`GoStr`), hashes as byte
lists, the object store as an association list, and the recursive object
walker as a fuel-indexed structural recursion (the fuel is an artifact of
the embedding; every claim is stated for all fuel values, and concrete
evaluations pick a fuel large enough for the walk to complete).
-/

namespace GitTesting

/-- Go strings are byte slices; we model them as lists of characters. -/
abbrev GoStr := List Char

/-- Coerce a Lean string literal to the `GoStr` model. -/
def gs (s : String) : GoStr := s.data

/-- The NUL byte used to separate capabilities from the first ref line. -/
def nulChar : Char := '\x00'

/-- Value of a hex digit, as accepted by Go `encoding/hex` (both cases). -/
def hexVal (c : Char) : Option Nat :=
  if '0' ≤ c ∧ c ≤ '9' then some (c.toNat - '0'.toNat)
  else if 'a' ≤ c ∧ c ≤ 'f' then some (c.toNat - 'a'.toNat + 10)
  else if 'A' ≤ c ∧ c ≤ 'F' then some (c.toNat - 'A'.toNat + 10)
  else none

/-- Go `hex.DecodeString`: decodes pairs of hex digits into bytes; fails on
an odd-length input or a non-hex character. -/
def hexDecode : GoStr → Option (List Nat)
  | [] => some []
  | [_] => none
  | c1 :: c2 :: rest =>
    match hexVal c1, hexVal c2, hexDecode rest with
    | some hi, some lo, some bs => some ((16 * hi + lo) :: bs)
    | _, _, _ => none

/-- A git object hash: 20 raw bytes (`plumbing.Hash`). -/
abbrev GitHash := List Nat

/-- `parseHash` (testing.go): hex-decode the client-provided string and
require exactly 20 bytes. -/
def parseHash (s : GoStr) : Except String GitHash :=
  match hexDecode s with
  | none => Except.error "hash was not hex"
  | some b => if b.length = 20 then Except.ok b else Except.error "hash was wrong length"

/-- Go `strings.Split` for a one-character separator. -/
def splitOnChar (c : Char) : GoStr → List GoStr
  | [] => [[]]
  | x :: xs =>
    match splitOnChar c xs with
    | [] => [[]]
    | r :: rs => if x = c then [] :: r :: rs else (x :: r) :: rs

/-- Join with a one-character separator (inverse of `splitOnChar`). -/
def joinWith (c : Char) : List GoStr → GoStr
  | [] => []
  | [s] => s
  | s :: s2 :: rest => s ++ c :: joinWith c (s2 :: rest)

/-- Go `strings.SplitN(s, " ", 3)`: at most three fields, the last field
holding the unsplit remainder. -/
def splitN3sp (s : GoStr) : List GoStr :=
  let ps := splitOnChar ' ' s
  if ps.length ≤ 3 then ps else ps.take 2 ++ [joinWith ' ' (ps.drop 2)]

/-! ## Object model (go-git plumbing objects, as consumed by the walker) -/

/-- go-git `filemode.FileMode` values. -/
inductive GitFileMode
  | empty
  | dir
  | regular
  | deprecated
  | executable
  | symlink
  | submodule
deriving DecidableEq, Repr

/-- One entry of a tree object. -/
structure GitTreeEntry where
  name : GoStr
  mode : GitFileMode
  hash : GitHash
deriving DecidableEq, Repr

/-- A stored git object: blob, tree, commit, or tag. -/
inductive GitObject
  | blob (data : List Nat)
  | tree (entries : List GitTreeEntry)
  | commit (treeHash : GitHash) (parentHashes : List GitHash)
  | tag (target : GitHash)
deriving DecidableEq, Repr

/-- The content-addressed object store, as a lookup table. -/
abbrev ObjectStore := List (GitHash × GitObject)

/-- `object.GetObject`: fetch an object by hash. -/
def getObject (store : ObjectStore) (h : GitHash) : Option GitObject :=
  (store.find? (fun p => p.1 = h)).map (fun p => p.2)

/-- A reference: direct hash, symbolic, or invalid (go-git `plumbing.Reference`). -/
inductive GitReference
  | hashRef (name : GoStr) (hash : GitHash)
  | symbolic (name : GoStr) (target : GoStr)
  | invalid (name : GoStr)
deriving DecidableEq, Repr

/-- The name of a reference. -/
def refName : GitReference → GoStr
  | .hashRef n _ => n
  | .symbolic n _ => n
  | .invalid n => n

/-! ## Object graph walker (`objectWalker`) -/

/-- The walker's state: the seen-set (`objectWalker.seen`, membership is
what matters) plus a trace of the hashes passed to `object.GetObject`,
in call order (an observation added by the embedding so that fetch
counts can be stated). -/
structure WalkState where
  seen : List GitHash
  fetched : List GitHash
deriving DecidableEq, Repr

/-- `newObjectWalker`: fresh walker state with an empty seen-set. -/
def walkInit : WalkState := ⟨[], []⟩

/-- `isSeen` (testing.go). -/
def isSeen (st : WalkState) (h : GitHash) : Bool := h ∈ st.seen

/-- `add` (testing.go): mark a hash as seen. -/
def addSeen (st : WalkState) (h : GitHash) : WalkState :=
  { st with seen := h :: st.seen }

/-- The mark-then-fetch prelude of `walkObjectTree`: the hash is added to
the seen-set (`p.add(hash)`) and the subsequent `object.GetObject` call
is recorded in the fetch trace. -/
def markAndTrace (st : WalkState) (h : GitHash) : WalkState :=
  ⟨h :: st.seen, st.fetched ++ [h]⟩

/-- `walkObjectTree` (testing.go): depth-first memoized traversal.
Returns immediately when the hash is already seen; otherwise marks it
seen, fetches the object, and recurses per type.  Commits recurse into
the tree hash then each parent; tree entries with regular, executable or
symlink mode are added to the seen-set directly, submodule entries are
skipped, all other modes (dir, plus the warn-and-fall-through default)
recurse; tags recurse into the target; any other object kind (blobs) is
a fatal error.  The `fuel` argument is an embedding artifact standing in
for the Go call stack. -/
def walkObjectTree (store : ObjectStore) (fuel : Nat) (st : WalkState) (hash : GitHash) :
    WalkState × Option String :=
  if hash ∈ st.seen then (st, none)
  else
    match fuel with
    | 0 => (st, some "walk fuel exhausted")
    | fuel + 1 =>
      match getObject store hash with
      | none => (markAndTrace st hash, some "getting object failed")
      | some obj =>
        match obj with
        | .commit treeHash parentHashes =>
          (treeHash :: parentHashes).foldl
            (fun acc h =>
              match acc with
              | (st, some e) => (st, some e)
              | (st, none) => walkObjectTree store fuel st h)
            (markAndTrace st hash, none)
        | .tree entries =>
          entries.foldl
            (fun acc e =>
              match acc with
              | (st, some err) => (st, some err)
              | (st, none) =>
                match e.mode with
                | .executable | .regular | .symlink => (addSeen st e.hash, none)
                | .submodule => (st, none)
                | _ => walkObjectTree store fuel st e.hash)
            (markAndTrace st hash, none)
        | .tag target => walkObjectTree store fuel (markAndTrace st hash) target
        | .blob _ => (markAndTrace st hash, some "unknown object")

/-- The walker's traversal of the children of a commit (its tree hash
followed by its parent hashes), with the early-error-return of the
source modelled by an absorbing error accumulator.  This is definitionally
the commit branch of `walkObjectTree`. -/
def walkHashList (store : ObjectStore) (fuel : Nat) (st : WalkState) (hs : List GitHash) :
    WalkState × Option String :=
  hs.foldl
    (fun acc h =>
      match acc with
      | (st, some e) => (st, some e)
      | (st, none) => walkObjectTree store fuel st h)
    (st, none)

/-- The walker's traversal of the entries of a tree object; definitionally
the tree branch of `walkObjectTree`. -/
def walkTreeEntries (store : ObjectStore) (fuel : Nat) (st : WalkState) (es : List GitTreeEntry) :
    WalkState × Option String :=
  es.foldl
    (fun acc e =>
      match acc with
      | (st, some err) => (st, some err)
      | (st, none) =>
        match e.mode with
        | .executable | .regular | .symlink => (addSeen st e.hash, none)
        | .submodule => (st, none)
        | _ => walkObjectTree store fuel st e.hash)
    (st, none)

/-- `walkAllRefs` iteration (testing.go): walk the references in order,
skipping any reference whose type is not a direct hash reference, and
abort on the first walk error. -/
def walkAllRefsFrom (store : ObjectStore) (fuel : Nat) :
    List GitReference → WalkState → WalkState × Option String
  | [], st => (st, none)
  | r :: rs, st =>
    match r with
    | .hashRef _ h =>
      match walkObjectTree store fuel st h with
      | (st', some e) => (st', some e)
      | (st', none) => walkAllRefsFrom store fuel rs st'
    | _ => walkAllRefsFrom store fuel rs st

/-- `walkAllRefs` (testing.go) on a fresh walker. -/
def walkAllRefs (store : ObjectStore) (fuel : Nat) (refs : List GitReference) :
    WalkState × Option String :=
  walkAllRefsFrom store fuel refs walkInit

/-- The hashes on which `walkAllRefsFrom` invokes `walkObjectTree`: exactly
the hashes of the direct hash references, in iteration order. -/
def codeRoots (refs : List GitReference) : List GitHash :=
  refs.filterMap fun r =>
    match r with
    | .hashRef _ h => some h
    | _ => none

/-- Walking a plain list of root hashes in order, aborting on the first
error (used to characterize `walkAllRefsFrom`). -/
def walkRootList (store : ObjectStore) (fuel : Nat) :
    List GitHash → WalkState → WalkState × Option String
  | [], st => (st, none)
  | h :: hs, st =>
    match walkObjectTree store fuel st h with
    | (st', some e) => (st', some e)
    | (st', none) => walkRootList store fuel hs st'

/-- Modelled from the spec: resolution of a symbolic reference by following
reference names transitively through the store (go-git
`Repository.Reference(name, true)`, which is not part of the source file).
Returns `none` when the chain does not resolve. -/
def resolveReference (refs : List GitReference) : Nat → GitReference → Option GitHash
  | 0, _ => none
  | _, .hashRef _ h => some h
  | _, .invalid _ => none
  | fuel + 1, .symbolic _ target =>
    match refs.find? (fun r => refName r = target) with
    | none => none
    | some r => resolveReference refs fuel r

/-- Modelled from the spec: the walk roots that §4.2 describes — every
reference resolved, unresolvable symbolic references skipped, and one
`walkObjectTree` call per resulting direct-hash reference. -/
def specRoots (refs : List GitReference) (fuel : Nat) : List GitHash :=
  refs.filterMap (resolveReference refs fuel)

/-! ## Packet-line codec -/

/-- Character for a hex digit value (lowercase, as produced by Go `%x`). -/
def hexDigitChar (n : Nat) : Char :=
  if n < 10 then Char.ofNat ('0'.toNat + n) else Char.ofNat ('a'.toNat + (n - 10))

/-- Hex digits of `n`, least-significant first; the fuel bounds the digit
count and `n` itself always suffices. -/
def toHexRev (fuel : Nat) (n : Nat) : GoStr :=
  match fuel with
  | 0 => []
  | fuel + 1 => if n = 0 then [] else hexDigitChar (n % 16) :: toHexRev fuel (n / 16)

/-- Lowercase hex representation of `n`, no padding (Go `%x`). -/
def hexStr (n : Nat) : GoStr :=
  if n = 0 then ['0'] else (toHexRev n n).reverse

/-- Go `fmt.Sprintf("%04x", n)`: lowercase hex, zero-padded to at least
four digits. -/
def sprintf04x (n : Nat) : GoStr :=
  List.replicate (4 - (hexStr n).length) '0' ++ hexStr n

/-- The bytes `PacketLineWriter.WriteLine` emits for a line `s`: a 4-hex
digit length prefix counting the 4 digits, the line and the trailing
newline, then the line, then a newline. -/
def writeLineBytes (s : GoStr) : GoStr :=
  sprintf04x (4 + s.length + 1) ++ s ++ ['\n']

/-- Accumulating hex parser: fails on the first non-hex character. -/
def parseHexAcc (acc : Nat) : GoStr → Option Nat
  | [] => some acc
  | c :: cs =>
    match hexVal c with
    | none => none
    | some v => parseHexAcc (16 * acc + v) cs

/-- Parse exactly four hex digits. -/
def parseHex4 (cs : GoStr) : Option Nat :=
  if cs.length = 4 then parseHexAcc 0 cs else none

/-- Result of decoding one packet line. -/
inductive PktRead
  | endSection (rest : GoStr)
  | line (body : GoStr) (rest : GoStr)
deriving DecidableEq, Repr

/-- Modelled from the spec: the packet-line decoder (go-git
`pktline.Scanner`, which is not part of the source file).  Per §4.1 it
reads a 4-hex-digit prefix; `0000` yields end-of-section; a prefix below
4 or a truncated body is a framing error; otherwise the body is exactly
`prefix - 4` further bytes. -/
def decodePktLine (bs : GoStr) : Option PktRead :=
  match parseHex4 (bs.take 4) with
  | none => none
  | some n =>
    if n = 0 then some (.endSection (bs.drop 4))
    else if n < 4 then none
    else
      let body := (bs.drop 4).take (n - 4)
      if body.length < n - 4 then none
      else some (.line body ((bs.drop 4).drop (n - 4)))

/-! ## PacketLineWriter (deferred-error framing writer)

The underlying `bufio.Writer` is abstracted as a state type `σ` with a
write operation returning a possibly-failing new state, mirroring the
`io.Writer` contract consumed by the source. -/

/-- `PacketLineWriter` (testing.go): a buffered writer state plus the
first recorded error. -/
structure PacketLineWriter (σ : Type) where
  err : Option String
  w : σ
deriving Repr

/-- `PacketLineWriter.WriteLine`: no-op if an error is recorded; otherwise
writes the 4-hex length prefix, the line, and a newline, recording the
first error of the three underlying writes and skipping the rest. -/
def WriteLine {σ : Type} (wr : σ → GoStr → σ × Option String)
    (plw : PacketLineWriter σ) (s : GoStr) : PacketLineWriter σ :=
  match plw.err with
  | some _ => plw
  | none =>
    match wr plw.w (sprintf04x (4 + s.length + 1)) with
    | (w1, some e) => ⟨some e, w1⟩
    | (w1, none) =>
      match wr w1 s with
      | (w2, some e) => ⟨some e, w2⟩
      | (w2, none) =>
        match wr w2 ['\n'] with
        | (w3, some e) => ⟨some e, w3⟩
        | (w3, none) => ⟨none, w3⟩

/-- `PacketLineWriter.WriteZeroPacketLine`: writes the literal `0000`
marker, with the same deferred-error discipline. -/
def WriteZeroPacketLine {σ : Type} (wr : σ → GoStr → σ × Option String)
    (plw : PacketLineWriter σ) : PacketLineWriter σ :=
  match plw.err with
  | some _ => plw
  | none =>
    match wr plw.w (gs "0000") with
    | (w1, some e) => ⟨some e, w1⟩
    | (w1, none) => ⟨none, w1⟩

/-- `PacketLineWriter.Flush`: returns the recorded error if any, otherwise
flushes the underlying buffer and returns its result. -/
def Flush {σ : Type} (fl : σ → σ × Option String) (plw : PacketLineWriter σ) : Option String :=
  match plw.err with
  | some e => some e
  | none => (fl plw.w).2

/-- A write-side operation on the `PacketLineWriter`. -/
inductive WriterOp
  | writeLine (s : GoStr)
  | writeZero

/-- Run a sequence of write operations. -/
def runWriterOps {σ : Type} (wr : σ → GoStr → σ × Option String) :
    List WriterOp → PacketLineWriter σ → PacketLineWriter σ
  | [], plw => plw
  | .writeLine s :: ops, plw => runWriterOps wr ops (WriteLine wr plw s)
  | .writeZero :: ops, plw => runWriterOps wr ops (WriteZeroPacketLine wr plw)

/-! ## Reference advertiser (`serveGitInfoRefs`) -/

/-- One framed line on the wire: a payload line or the `0000` marker. -/
inductive WireLine
  | line (s : GoStr)
  | zero
deriving DecidableEq, Repr

/-- The capability switch of `serveGitInfoRefs`: `symref=HEAD:refs/heads/main`
for upload-pack, nothing for receive-pack, and a client error otherwise. -/
def capabilitiesFor (serviceName : GoStr) : Except String (List GoStr) :=
  if serviceName = gs "git-upload-pack" then Except.ok [gs "symref=HEAD:refs/heads/main"]
  else if serviceName = gs "git-receive-pack" then Except.ok []
  else Except.error "unknown service-name"

/-- `plumbing.ReferenceName.IsRemote`. -/
def isRemoteName (n : GoStr) : Bool := (gs "refs/remotes/").isPrefixOf n

/-- Hex form of one byte (two lowercase digits). -/
def byteHex (b : Nat) : GoStr := [hexDigitChar (b / 16 % 16), hexDigitChar (b % 16)]

/-- `plumbing.Hash.String`: 40 lowercase hex characters. -/
def hashHex (h : GitHash) : GoStr := h.flatMap byteHex

/-- The reference-iteration loop of `serveGitInfoRefs`: skip remote refs,
resolve symbolic refs via the external `resolve` (skipping unresolvable
ones), fail on an invalid reference, emit `<hash> <name>` per reference,
and prepend the `HEAD` line instead of appending it. -/
def advRefLoop (resolve : GoStr → Option GitHash) (acc : List GoStr) :
    List GitReference → Except String (List GoStr)
  | [] => Except.ok acc
  | r :: rs =>
    if isRemoteName (refName r) then advRefLoop resolve acc rs
    else
      match r with
      | .invalid _ => Except.error "unexpected reference encountered"
      | .hashRef n h =>
        let l := hashHex h ++ ' ' :: n
        if n = gs "HEAD" then advRefLoop resolve (l :: acc) rs
        else advRefLoop resolve (acc ++ [l]) rs
      | .symbolic n _ =>
        match resolve n with
        | none => advRefLoop resolve acc rs
        | some h =>
          let l := hashHex h ++ ' ' :: n
          if n = gs "HEAD" then advRefLoop resolve (l :: acc) rs
          else advRefLoop resolve (acc ++ [l]) rs

/-- The capability attachment of `serveGitInfoRefs`: the line at index 0
gets a NUL byte and the space-joined capability list appended; every
other line is emitted as-is. -/
def attachCaps (caps : List GoStr) : List GoStr → List GoStr
  | [] => []
  | l0 :: rest => (l0 ++ nulChar :: joinWith ' ' caps) :: rest

/-- `serveGitInfoRefs` (testing.go): the framed advertisement — the
service comment line, a zero marker, the capability-annotated ref lines,
and a final zero marker. -/
def serveGitInfoRefs (resolve : GoStr → Option GitHash) (serviceName : GoStr)
    (refs : List GitReference) : Except String (List WireLine) :=
  match capabilitiesFor serviceName with
  | Except.error e => Except.error e
  | Except.ok caps =>
    match advRefLoop resolve [] refs with
    | Except.error e => Except.error e
    | Except.ok refLines =>
      Except.ok ([.line (gs "# service=" ++ serviceName), .zero]
        ++ (attachCaps caps refLines).map WireLine.line ++ [.zero])

/-! ## Receive-pack handler (`serveGitReceivePack`) -/

/-- `RefUpdate` (testing.go). -/
structure RefUpdate where
  From : GitHash
  To : GitHash
  Ref : GoStr
deriving DecidableEq, Repr

/-- Parse one ref-update line of the receive-pack request, per the source:
`strings.SplitN(line, " ", 3)` must yield three tokens; the third token is
split on NUL, whose tail is only tolerated (as capabilities) on the first
line; the first two tokens must parse as 20-byte hex hashes.  Returns the
update plus the capabilities taken from the line. -/
def parseRefUpdateLine (firstLine : Bool) (l : GoStr) :
    Except String (RefUpdate × List GoStr) :=
  match splitN3sp l with
  | [t0, t1, t2] =>
    let refTokens := splitOnChar nulChar t2
    let ref := refTokens.headD []
    if !firstLine ∧ refTokens.length ≠ 1 then Except.error "unexpected line (nulls)"
    else
      let caps := if firstLine ∧ refTokens.length > 1 then refTokens.drop 1 else []
      match parseHash t0 with
      | Except.error _ => Except.error "unexpected line (hash1)"
      | Except.ok fromHash =>
        match parseHash t1 with
        | Except.error _ => Except.error "unexpected line (hash2)"
        | Except.ok toHash => Except.ok (⟨fromHash, toHash, ref⟩, caps)
  | _ => Except.error "unexpected line (spaces)"

/-- The ref-update reading loop of `serveGitReceivePack`: read lines until
a blank line, parsing each; running out of lines is an EOF error. -/
def parseRefUpdates : Bool → List GoStr → Except String (List RefUpdate × List GoStr)
  | _, [] => Except.error "error reading request line: EOF"
  | firstLine, l :: ls =>
    if l = [] then Except.ok ([], [])
    else
      match parseRefUpdateLine firstLine l with
      | Except.error e => Except.error e
      | Except.ok (u, caps) =>
        match parseRefUpdates false ls with
        | Except.error e => Except.error e
        | Except.ok (us, caps') => Except.ok (u :: us, if firstLine then caps else caps')

/-- The ref-update application loop of `serveGitReceivePack`: for each
update, unconditionally set the named reference to the update's `To`
hash; a failure is logged and skipped, the loop continues. -/
def applyRefUpdates {ρ : Type} (setReference : ρ → GoStr → GitHash → Except String ρ)
    (refs : ρ) : List RefUpdate → ρ
  | [] => refs
  | u :: us =>
    match setReference refs u.Ref u.To with
    | Except.error _ => applyRefUpdates setReference refs us
    | Except.ok refs' => applyRefUpdates setReference refs' us

/-- A receive-pack request: content encoding header, the pre-scanned
packet lines, and the remaining pack-stream body (abstract). -/
structure ReceivePackRequest (π : Type) where
  contentEncoding : GoStr
  lines : List GoStr
  packBody : π

/-- The repository store: object storage (abstract) plus reference
storage (abstract). -/
structure RepoStore (ω ρ : Type) where
  objects : ω
  refs : ρ

/-- Outcome of a receive-pack request: the packet lines written on the
wire, the resulting store, and the handler's returned error. -/
structure ReceivePackResult (ω ρ : Type) where
  output : List WireLine
  store : RepoStore ω ρ
  err : Option String

/-- `serveGitReceivePack` (testing.go).  External collaborators are
parameters: `gunzip` (compress/gzip), `updateObjectStorage`
(go-git `packfile.UpdateObjectStorage`; it may leave partial object
writes behind on failure, hence it returns a new object state alongside
the error), and `setReference` (the store's reference update).
The flow: check the content encoding; read and validate ref-update lines
(any violation fails the request before the body is decoded); decode the
pack body into object storage — on failure report
`unpack error parsing packfile` on the wire and stop without touching any
reference; on success report `unpack ok` and apply each ref update
independently. -/
def serveGitReceivePack {π ω ρ : Type}
    (gunzip : π → Except String π)
    (updateObjectStorage : ω → π → ω × Option String)
    (setReference : ρ → GoStr → GitHash → Except String ρ)
    (req : ReceivePackRequest π) (store : RepoStore ω ρ) : ReceivePackResult ω ρ :=
  let bodyE : Except String π :=
    if req.contentEncoding = [] then Except.ok req.packBody
    else if req.contentEncoding = gs "gzip" then gunzip req.packBody
    else Except.error "unknown content-encoding"
  match bodyE with
  | Except.error e => ⟨[], store, some e⟩
  | Except.ok body =>
    match parseRefUpdates true req.lines with
    | Except.error e => ⟨[], store, some e⟩
    | Except.ok (refUpdates, _clientCapabilities) =>
      match updateObjectStorage store.objects body with
      | (objects', some _e) =>
        ⟨[.line (gs "unpack error parsing packfile")], ⟨objects', store.refs⟩, none⟩
      | (objects', none) =>
        ⟨[.line (gs "unpack ok"), .zero],
          ⟨objects', applyRefUpdates setReference store.refs refUpdates⟩, none⟩

/-! ## Walker invariants -/

/-- The walker's step invariant from state `st` to state `st'`: the
seen-set only grows, and the fetch trace is extended by a duplicate-free
batch of hashes none of which was seen at the start and all of which are
seen at the end. -/
def WalkStep (st st' : WalkState) : Prop :=
  (∀ x, x ∈ st.seen → x ∈ st'.seen) ∧
    ∃ F, st'.fetched = st.fetched ++ F ∧ F.Nodup ∧
      ∀ x ∈ F, x ∉ st.seen ∧ x ∈ st'.seen

theorem walkStep_refl (st : WalkState) : WalkStep st st :=
  ⟨fun _ hx => hx, [], by simp, List.nodup_nil, by simp⟩

theorem walkStep_trans {a b c : WalkState} (h1 : WalkStep a b) (h2 : WalkStep b c) :
    WalkStep a c := by
  obtain ⟨mono1, F1, hf1, nd1, hm1⟩ := h1
  obtain ⟨mono2, F2, hf2, nd2, hm2⟩ := h2
  refine ⟨fun x hx => mono2 x (mono1 x hx), F1 ++ F2, ?_, ?_, ?_⟩
  · rw [hf2, hf1, List.append_assoc]
  · refine nd1.append nd2 ?_
    intro x hx1 hx2
    exact (hm2 x hx2).1 ((hm1 x hx1).2)
  · intro x hx
    rcases List.mem_append.1 hx with hx1 | hx2
    · exact ⟨(hm1 x hx1).1, mono2 x (hm1 x hx1).2⟩
    · refine ⟨fun hxa => (hm2 x hx2).1 (mono1 x hxa), (hm2 x hx2).2⟩

theorem walkStep_addSeen (st : WalkState) (h : GitHash) : WalkStep st (addSeen st h) :=
  ⟨fun x hx => by simp [addSeen]; exact Or.inr hx, [], by simp [addSeen], List.nodup_nil, by simp⟩

theorem walkStep_markAndTrace {st : WalkState} {h : GitHash} (hns : h ∉ st.seen) :
    WalkStep st (markAndTrace st h) := by
  refine ⟨fun x hx => by simp [markAndTrace]; exact Or.inr hx, [h], by simp [markAndTrace], ?_, ?_⟩
  · exact List.nodup_singleton h
  · intro x hx
    rw [List.mem_singleton] at hx
    subst hx
    exact ⟨hns, by simp [markAndTrace]⟩

/-- Folding a step function that satisfies `WalkStep` preserves `WalkStep`. -/
theorem walkStep_foldl {α : Type} (step : WalkState × Option String → α → WalkState × Option String)
    (hstep : ∀ acc x, WalkStep acc.1 (step acc x).1) :
    ∀ (l : List α) (acc : WalkState × Option String), WalkStep acc.1 (l.foldl step acc).1 := by
  intro l
  induction l with
  | nil => intro acc; exact walkStep_refl _
  | cons x xs ih =>
    intro acc
    exact walkStep_trans (hstep acc x) (ih (step acc x))

/-- Every `walkObjectTree` call satisfies the step invariant: the seen-set
grows, and the newly fetched hashes are duplicate-free, unseen at entry
and seen at exit. -/
theorem walkObjectTree_walkStep (store : ObjectStore) :
    ∀ (fuel : Nat) (st : WalkState) (hash : GitHash),
      WalkStep st (walkObjectTree store fuel st hash).1 := by
  intro fuel
  induction fuel with
  | zero =>
    intro st hash
    unfold walkObjectTree
    by_cases h : hash ∈ st.seen <;> simp [h, walkStep_refl]
  | succ n ih =>
    intro st hash
    unfold walkObjectTree
    by_cases h : hash ∈ st.seen
    · simp [h, walkStep_refl]
    · simp only [h, if_false, ite_false]
      rcases hobj : getObject store hash with _ | obj
      · exact walkStep_markAndTrace h
      · rcases obj with data | entries | ⟨treeHash, parentHashes⟩ | target
        · exact walkStep_markAndTrace h
        · dsimp only
          refine walkStep_trans (walkStep_markAndTrace h) (walkStep_foldl _ ?_ entries (markAndTrace st hash, none))
          intro acc e
          rcases acc with ⟨st1, e1⟩
          rcases e1 with _ | err
          · rcases hm : e.mode with _ | _ | _ | _ | _ | _ | _ <;>
              simp [hm, walkStep_refl, walkStep_addSeen, ih]
          · exact walkStep_refl _
        · dsimp only
          refine walkStep_trans (walkStep_markAndTrace h) (walkStep_foldl _ ?_ (treeHash :: parentHashes) (markAndTrace st hash, none))
          intro acc hh
          rcases acc with ⟨st1, e1⟩
          rcases e1 with _ | err
          · exact ih st1 hh
          · exact walkStep_refl _
        · dsimp only
          exact walkStep_trans (walkStep_markAndTrace h) (ih _ target)

/-- `walkAllRefsFrom` satisfies the step invariant. -/
theorem walkAllRefsFrom_walkStep (store : ObjectStore) (fuel : Nat) :
    ∀ (refs : List GitReference) (st : WalkState),
      WalkStep st (walkAllRefsFrom store fuel refs st).1 := by
  intro refs
  induction refs with
  | nil => intro st; exact walkStep_refl st
  | cons r rs ih =>
    intro st
    rcases r with ⟨n, h⟩ | ⟨n, t⟩ | n
    · simp only [walkAllRefsFrom]
      rcases hw : walkObjectTree store fuel st h with ⟨st', e⟩
      have hstep : WalkStep st st' := by
        have := walkObjectTree_walkStep store fuel st h
        rw [hw] at this
        exact this
      rcases e with _ | err
      · exact walkStep_trans hstep (ih st')
      · exact hstep
    · exact ih st
    · exact ih st

/-- An error accumulator is absorbing for the walker's folds. -/
theorem foldl_error_absorb {α : Type}
    (step : WalkState × Option String → α → WalkState × Option String)
    (hstep : ∀ st e x, step (st, some e) x = (st, some e)) :
    ∀ (l : List α) (st : WalkState) (e : String), l.foldl step (st, some e) = (st, some e) := by
  intro l
  induction l with
  | nil => intro st e; rfl
  | cons x xs ih => intro st e; rw [List.foldl_cons, hstep st e x, ih]

/-! ### Branch equations for `walkObjectTree` -/

theorem walkObjectTree_seen {store : ObjectStore} {fuel : Nat} {st : WalkState} {hash : GitHash}
    (h : hash ∈ st.seen) : walkObjectTree store fuel st hash = (st, none) := by
  unfold walkObjectTree
  simp [h]

theorem walkObjectTree_commit {store : ObjectStore} {fuel : Nat} {st : WalkState}
    {hash treeHash : GitHash} {parentHashes : List GitHash} (h : hash ∉ st.seen)
    (hobj : getObject store hash = some (.commit treeHash parentHashes)) :
    walkObjectTree store (fuel + 1) st hash =
      walkHashList store fuel (markAndTrace st hash) (treeHash :: parentHashes) := by
  unfold walkObjectTree
  simp only [h, ite_false, hobj]
  rfl

theorem walkObjectTree_tree {store : ObjectStore} {fuel : Nat} {st : WalkState}
    {hash : GitHash} {entries : List GitTreeEntry} (h : hash ∉ st.seen)
    (hobj : getObject store hash = some (.tree entries)) :
    walkObjectTree store (fuel + 1) st hash =
      walkTreeEntries store fuel (markAndTrace st hash) entries := by
  unfold walkObjectTree
  simp only [h, ite_false, hobj]
  rfl

theorem walkObjectTree_tag {store : ObjectStore} {fuel : Nat} {st : WalkState}
    {hash target : GitHash} (h : hash ∉ st.seen)
    (hobj : getObject store hash = some (.tag target)) :
    walkObjectTree store (fuel + 1) st hash =
      walkObjectTree store fuel (markAndTrace st hash) target := by
  conv_lhs => rw [walkObjectTree]
  simp only [h, ite_false, hobj]

theorem walkObjectTree_blob {store : ObjectStore} {fuel : Nat} {st : WalkState}
    {hash : GitHash} {data : List Nat} (h : hash ∉ st.seen)
    (hobj : getObject store hash = some (.blob data)) :
    walkObjectTree store (fuel + 1) st hash = (markAndTrace st hash, some "unknown object") := by
  unfold walkObjectTree
  simp only [h, ite_false, hobj]

theorem walkHashList_nil (store : ObjectStore) (fuel : Nat) (st : WalkState) :
    walkHashList store fuel st [] = (st, none) := rfl

theorem walkHashList_cons (store : ObjectStore) (fuel : Nat) (st : WalkState)
    (h : GitHash) (hs : List GitHash) :
    walkHashList store fuel st (h :: hs) =
      match walkObjectTree store fuel st h with
      | (st', some e) => (st', some e)
      | (st', none) => walkHashList store fuel st' hs := by
  unfold walkHashList
  rw [List.foldl_cons]
  show List.foldl _ (walkObjectTree store fuel st h) hs = _
  rcases hw : walkObjectTree store fuel st h with ⟨st', e⟩
  rcases e with _ | err
  · rfl
  · exact foldl_error_absorb _ (fun _ _ _ => rfl) hs st' err

theorem walkTreeEntries_nil (store : ObjectStore) (fuel : Nat) (st : WalkState) :
    walkTreeEntries store fuel st [] = (st, none) := rfl

/-- Tree entries with regular, executable or symlink mode are added to the
seen-set directly: no fetch, no recursion. -/
theorem walkTreeEntries_cons_add {store : ObjectStore} {fuel : Nat} {st : WalkState}
    {e : GitTreeEntry} {es : List GitTreeEntry}
    (hm : e.mode = .regular ∨ e.mode = .executable ∨ e.mode = .symlink) :
    walkTreeEntries store fuel st (e :: es) =
      walkTreeEntries store fuel (addSeen st e.hash) es := by
  unfold walkTreeEntries
  rw [List.foldl_cons]
  rcases hm with hm | hm | hm <;> simp only [hm]

/-- Tree entries with submodule mode are skipped entirely: the state is
unchanged, the entry hash is neither added nor walked. -/
theorem walkTreeEntries_cons_submodule {store : ObjectStore} {fuel : Nat} {st : WalkState}
    {e : GitTreeEntry} {es : List GitTreeEntry} (hm : e.mode = .submodule) :
    walkTreeEntries store fuel st (e :: es) = walkTreeEntries store fuel st es := by
  unfold walkTreeEntries
  rw [List.foldl_cons]
  simp only [hm]

/-- Tree entries with directory mode (and the warn-and-fall-through
modes) recurse via `walkObjectTree`. -/
theorem walkTreeEntries_cons_recurse {store : ObjectStore} {fuel : Nat} {st : WalkState}
    {e : GitTreeEntry} {es : List GitTreeEntry}
    (hm : e.mode = .dir ∨ e.mode = .empty ∨ e.mode = .deprecated) :
    walkTreeEntries store fuel st (e :: es) =
      match walkObjectTree store fuel st e.hash with
      | (st', some err) => (st', some err)
      | (st', none) => walkTreeEntries store fuel st' es := by
  unfold walkTreeEntries
  rw [List.foldl_cons]
  have hstep : ∀ (st1 : WalkState) (e1 : String) (x : GitTreeEntry),
      (fun (acc : WalkState × Option String) (e : GitTreeEntry) =>
        match acc with
        | (st, some err) => (st, some err)
        | (st, none) =>
          match e.mode with
          | .executable | .regular | .symlink => (addSeen st e.hash, none)
          | .submodule => (st, none)
          | _ => walkObjectTree store fuel st e.hash) (st1, some e1) x = (st1, some e1) :=
    fun _ _ _ => rfl
  rcases hw : walkObjectTree store fuel st e.hash with ⟨st', er⟩
  rcases hm with hm | hm | hm <;> simp only [hm] <;> rw [hw] <;> rcases er with _ | err
  · rfl
  · exact foldl_error_absorb _ hstep es st' err
  · rfl
  · exact foldl_error_absorb _ hstep es st' err
  · rfl
  · exact foldl_error_absorb _ hstep es st' err

/-! ### Seen-set sources -/

/-- The child hashes the walker recurses into (or adds directly) for one
object: a commit's tree and parents, a tree's non-submodule entry hashes,
a tag's target; blobs have no children.  Submodule entry hashes are
excluded — the walker never touches them. -/
def ChildHashes : GitObject → List GitHash
  | .blob _ => []
  | .tree es => es.filterMap (fun e => if e.mode = .submodule then none else some e.hash)
  | .commit t ps => t :: ps
  | .tag t => [t]

/-- `x` is a non-submodule child of some object present in the store. -/
def IsChild (store : ObjectStore) (x : GitHash) : Prop :=
  ∃ h obj, getObject store h = some obj ∧ x ∈ ChildHashes obj

/-- Seen-sources invariant: every hash in the seen-set after a
`walkObjectTree` call was already seen, is the walked root itself, or is
a non-submodule child of a stored object. -/
theorem walkObjectTree_seen_sources (store : ObjectStore) :
    ∀ (fuel : Nat) (st : WalkState) (hash : GitHash) (y : GitHash),
      y ∈ (walkObjectTree store fuel st hash).1.seen →
        y ∈ st.seen ∨ y = hash ∨ IsChild store y := by
  intro fuel
  induction fuel with
  | zero =>
    intro st hash y
    unfold walkObjectTree
    by_cases h : hash ∈ st.seen <;> simp [h] <;> exact fun hy => Or.inl hy
  | succ n ih =>
    intro st hash y
    by_cases h : hash ∈ st.seen
    · rw [walkObjectTree_seen h]
      exact fun hy => Or.inl hy
    · rcases hobj : getObject store hash with _ | obj
      · unfold walkObjectTree
        simp only [h, ite_false, hobj]
        intro hy
        rcases List.mem_cons.1 hy with h1 | h2
        · exact Or.inr (Or.inl h1)
        · exact Or.inl h2
      · rcases obj with data | entries | ⟨treeHash, parentHashes⟩ | target
        · rw [walkObjectTree_blob h hobj]
          intro hy
          rcases List.mem_cons.1 hy with h1 | h2
          · exact Or.inr (Or.inl h1)
          · exact Or.inl h2
        · rw [walkObjectTree_tree h hobj]
          intro hy
          have hch : ∀ e ∈ entries, e.mode ≠ .submodule → IsChild store e.hash := by
            intro e he hmode
            refine ⟨hash, .tree entries, hobj, ?_⟩
            simp only [ChildHashes, List.mem_filterMap]
            exact ⟨e, he, by simp [hmode]⟩
          have aux : ∀ (es : List GitTreeEntry), (∀ e ∈ es, e ∈ entries) →
              ∀ (st1 : WalkState) (z : GitHash),
                z ∈ (walkTreeEntries store n st1 es).1.seen →
                  z ∈ st1.seen ∨ IsChild store z := by
            intro es
            induction es with
            | nil => intro _ st1 z hz; exact Or.inl hz
            | cons e es ihe =>
              intro hsub st1 z
              have hmem : e ∈ entries := hsub e (List.mem_cons_self e es)
              have hsub' : ∀ x ∈ es, x ∈ entries :=
                fun x hx => hsub x (List.mem_cons_of_mem e hx)
              rcases hmode : e.mode with _ | _ | _ | _ | _ | _ | _
              · rw [walkTreeEntries_cons_recurse (Or.inr (Or.inl hmode))]
                rcases hw : walkObjectTree store n st1 e.hash with ⟨st2, er⟩
                have hw1 : ∀ z, z ∈ st2.seen → z ∈ st1.seen ∨ z = e.hash ∨ IsChild store z := by
                  intro z hz
                  have := ih st1 e.hash z
                  rw [hw] at this
                  exact this hz
                have hdone : ∀ z, z ∈ st1.seen ∨ z = e.hash ∨ IsChild store z →
                    z ∈ st1.seen ∨ IsChild store z := by
                  intro z hz
                  rcases hz with h1 | h2 | h3
                  · exact Or.inl h1
                  · exact Or.inr (h2 ▸ hch e hmem (by simp [hmode]))
                  · exact Or.inr h3
                rcases er with _ | err
                · intro hz
                  rcases ihe hsub' st2 z hz with h1 | h2
                  · exact hdone z (hw1 z h1)
                  · exact Or.inr h2
                · intro hz
                  exact hdone z (hw1 z hz)
              · rw [walkTreeEntries_cons_recurse (Or.inl hmode)]
                rcases hw : walkObjectTree store n st1 e.hash with ⟨st2, er⟩
                have hw1 : ∀ z, z ∈ st2.seen → z ∈ st1.seen ∨ z = e.hash ∨ IsChild store z := by
                  intro z hz
                  have := ih st1 e.hash z
                  rw [hw] at this
                  exact this hz
                have hdone : ∀ z, z ∈ st1.seen ∨ z = e.hash ∨ IsChild store z →
                    z ∈ st1.seen ∨ IsChild store z := by
                  intro z hz
                  rcases hz with h1 | h2 | h3
                  · exact Or.inl h1
                  · exact Or.inr (h2 ▸ hch e hmem (by simp [hmode]))
                  · exact Or.inr h3
                rcases er with _ | err
                · intro hz
                  rcases ihe hsub' st2 z hz with h1 | h2
                  · exact hdone z (hw1 z h1)
                  · exact Or.inr h2
                · intro hz
                  exact hdone z (hw1 z hz)
              · rw [walkTreeEntries_cons_add (Or.inl hmode)]
                intro hz
                rcases ihe hsub' (addSeen st1 e.hash) z hz with h1 | h2
                · rcases List.mem_cons.1 h1 with h3 | h4
                  · exact Or.inr (h3 ▸ hch e hmem (by simp [hmode]))
                  · exact Or.inl h4
                · exact Or.inr h2
              · rw [walkTreeEntries_cons_recurse (Or.inr (Or.inr hmode))]
                rcases hw : walkObjectTree store n st1 e.hash with ⟨st2, er⟩
                have hw1 : ∀ z, z ∈ st2.seen → z ∈ st1.seen ∨ z = e.hash ∨ IsChild store z := by
                  intro z hz
                  have := ih st1 e.hash z
                  rw [hw] at this
                  exact this hz
                have hdone : ∀ z, z ∈ st1.seen ∨ z = e.hash ∨ IsChild store z →
                    z ∈ st1.seen ∨ IsChild store z := by
                  intro z hz
                  rcases hz with h1 | h2 | h3
                  · exact Or.inl h1
                  · exact Or.inr (h2 ▸ hch e hmem (by simp [hmode]))
                  · exact Or.inr h3
                rcases er with _ | err
                · intro hz
                  rcases ihe hsub' st2 z hz with h1 | h2
                  · exact hdone z (hw1 z h1)
                  · exact Or.inr h2
                · intro hz
                  exact hdone z (hw1 z hz)
              · rw [walkTreeEntries_cons_add (Or.inr (Or.inl hmode))]
                intro hz
                rcases ihe hsub' (addSeen st1 e.hash) z hz with h1 | h2
                · rcases List.mem_cons.1 h1 with h3 | h4
                  · exact Or.inr (h3 ▸ hch e hmem (by simp [hmode]))
                  · exact Or.inl h4
                · exact Or.inr h2
              · rw [walkTreeEntries_cons_add (Or.inr (Or.inr hmode))]
                intro hz
                rcases ihe hsub' (addSeen st1 e.hash) z hz with h1 | h2
                · rcases List.mem_cons.1 h1 with h3 | h4
                  · exact Or.inr (h3 ▸ hch e hmem (by simp [hmode]))
                  · exact Or.inl h4
                · exact Or.inr h2
              · rw [walkTreeEntries_cons_submodule hmode]
                intro hz
                exact ihe hsub' st1 z hz
          rcases aux entries (fun e he => he) (markAndTrace st hash) y hy with h1 | h2
          · rcases List.mem_cons.1 h1 with h3 | h4
            · exact Or.inr (Or.inl h3)
            · exact Or.inl h4
          · exact Or.inr (Or.inr h2)
        · rw [walkObjectTree_commit h hobj]
          intro hy
          have hch : ∀ x ∈ treeHash :: parentHashes, IsChild store x :=
            fun x hx => ⟨hash, .commit treeHash parentHashes, hobj, hx⟩
          have aux : ∀ (hs : List GitHash), (∀ x ∈ hs, IsChild store x) →
              ∀ (st1 : WalkState) (z : GitHash),
                z ∈ (walkHashList store n st1 hs).1.seen → z ∈ st1.seen ∨ IsChild store z := by
            intro hs
            induction hs with
            | nil => intro _ st1 z hz; exact Or.inl hz
            | cons x xs ihx =>
              intro hccs st1 z
              rw [walkHashList_cons]
              rcases hw : walkObjectTree store n st1 x with ⟨st2, er⟩
              have hw1 : ∀ z, z ∈ st2.seen → z ∈ st1.seen ∨ IsChild store z := by
                intro z hz
                have := ih st1 x z
                rw [hw] at this
                rcases this hz with h1 | h2 | h3
                · exact Or.inl h1
                · exact Or.inr (h2 ▸ hccs x (List.mem_cons_self x xs))
                · exact Or.inr h3
              rcases er with _ | err
              · intro hz
                rcases ihx (fun u hu => hccs u (List.mem_cons_of_mem x hu)) st2 z hz with h1 | h2
                · exact hw1 z h1
                · exact Or.inr h2
              · intro hz
                exact hw1 z hz
          rcases aux (treeHash :: parentHashes) hch (markAndTrace st hash) y hy with h1 | h2
          · rcases List.mem_cons.1 h1 with h3 | h4
            · exact Or.inr (Or.inl h3)
            · exact Or.inl h4
          · exact Or.inr (Or.inr h2)
        · rw [walkObjectTree_tag h hobj]
          intro hy
          rcases ih (markAndTrace st hash) target y hy with h1 | h2 | h3
          · rcases List.mem_cons.1 h1 with h3 | h4
            · exact Or.inr (Or.inl h3)
            · exact Or.inl h4
          · exact Or.inr (Or.inr ⟨hash, .tag target, hobj, by simp [ChildHashes, h2]⟩)
          · exact Or.inr (Or.inr h3)

/-- Seen-sources for a whole `walkAllRefsFrom` run: every seen hash was
already seen, is the hash of a direct hash reference, or is a
non-submodule child of a stored object. -/
theorem walkAllRefsFrom_seen_sources (store : ObjectStore) (fuel : Nat) :
    ∀ (refs : List GitReference) (st : WalkState) (y : GitHash),
      y ∈ (walkAllRefsFrom store fuel refs st).1.seen →
        y ∈ st.seen ∨ y ∈ codeRoots refs ∨ IsChild store y := by
  intro refs
  induction refs with
  | nil => intro st y hy; exact Or.inl hy
  | cons r rs ih =>
    intro st y
    rcases r with ⟨n, h⟩ | ⟨n, t⟩ | n
    · simp only [walkAllRefsFrom]
      rcases hw : walkObjectTree store fuel st h with ⟨st', e⟩
      have hsrc : ∀ z, z ∈ st'.seen → z ∈ st.seen ∨ z = h ∨ IsChild store z := by
        intro z hz
        have := walkObjectTree_seen_sources store fuel st h z
        rw [hw] at this
        exact this hz
      have hroot : h ∈ codeRoots (GitReference.hashRef n h :: rs) := by
        simp [codeRoots]
      rcases e with _ | err
      · intro hy
        rcases ih st' y hy with h1 | h2 | h3
        · rcases hsrc y h1 with g1 | g2 | g3
          · exact Or.inl g1
          · exact Or.inr (Or.inl (g2 ▸ hroot))
          · exact Or.inr (Or.inr g3)
        · refine Or.inr (Or.inl ?_)
          simp only [codeRoots, List.filterMap_cons] at h2 ⊢
          exact List.mem_cons_of_mem _ h2
        · exact Or.inr (Or.inr h3)
      · intro hy
        rcases hsrc y hy with g1 | g2 | g3
        · exact Or.inl g1
        · exact Or.inr (Or.inl (g2 ▸ hroot))
        · exact Or.inr (Or.inr g3)
    · intro hy
      rcases ih st y hy with h1 | h2 | h3
      · exact Or.inl h1
      · exact Or.inr (Or.inl (by simpa [codeRoots] using h2))
      · exact Or.inr (Or.inr h3)
    · intro hy
      rcases ih st y hy with h1 | h2 | h3
      · exact Or.inl h1
      · exact Or.inr (Or.inl (by simpa [codeRoots] using h2))
      · exact Or.inr (Or.inr h3)

/-- `walkAllRefsFrom` invokes `walkObjectTree` exactly on the hashes of
the direct hash references, in iteration order. -/
theorem walkAllRefsFrom_eq_rootList (store : ObjectStore) (fuel : Nat) :
    ∀ (refs : List GitReference) (st : WalkState),
      walkAllRefsFrom store fuel refs st = walkRootList store fuel (codeRoots refs) st := by
  intro refs
  induction refs with
  | nil => intro st; rfl
  | cons r rs ih =>
    intro st
    rcases r with ⟨n, h⟩ | ⟨n, t⟩ | n
    · simp only [walkAllRefsFrom, codeRoots, List.filterMap_cons]
      rcases hw : walkObjectTree store fuel st h with ⟨st', e⟩
      rcases e with _ | err <;> simp [walkRootList, hw, ih, codeRoots]
    · simpa [walkAllRefsFrom, codeRoots] using ih st
    · simpa [walkAllRefsFrom, codeRoots] using ih st

/-! ### Packet-line codec lemmas -/

theorem hexVal_hexDigitChar {d : Nat} (hd : d < 16) : hexVal (hexDigitChar d) = some d := by
  revert hd
  revert d
  decide

theorem parseHexAcc_append (xs ys : GoStr) :
    ∀ acc, parseHexAcc acc (xs ++ ys) =
      match parseHexAcc acc xs with
      | none => none
      | some a => parseHexAcc a ys := by
  induction xs with
  | nil => intro acc; rfl
  | cons c cs ih =>
    intro acc
    simp only [List.cons_append, parseHexAcc]
    rcases hexVal c with _ | v
    · rfl
    · exact ih (16 * acc + v)

theorem parseHexAcc_toHexRev :
    ∀ (fuel n acc : Nat), n ≤ fuel →
      parseHexAcc acc (toHexRev fuel n).reverse =
        some (acc * 16 ^ (toHexRev fuel n).length + n) := by
  intro fuel
  induction fuel with
  | zero =>
    intro n acc hn
    interval_cases n
    simp [toHexRev, parseHexAcc]
  | succ m ih =>
    intro n acc hn
    by_cases h0 : n = 0
    · subst h0
      simp [toHexRev, parseHexAcc]
    · have hdiv : n / 16 ≤ m := by
        have := Nat.div_lt_self (Nat.pos_of_ne_zero h0) (by norm_num : 1 < 16)
        omega
      simp only [toHexRev, h0, ite_false, List.reverse_cons]
      rw [parseHexAcc_append, ih (n / 16) acc hdiv]
      simp only [parseHexAcc, hexVal_hexDigitChar (Nat.mod_lt n (by norm_num : 0 < 16)),
        List.length_cons]
      congr 1
      have hmod : 16 * (n / 16) + n % 16 = n := by omega
      rw [pow_succ]
      ring_nf
      omega

theorem parseHexAcc_replicate_zero (cs : GoStr) :
    ∀ z, parseHexAcc 0 (List.replicate z '0' ++ cs) = parseHexAcc 0 cs := by
  intro z
  induction z with
  | zero => rfl
  | succ m ih =>
    rw [List.replicate_succ, List.cons_append]
    show parseHexAcc (16 * 0 + 0) _ = _
    exact ih

theorem toHexRev_length_le :
    ∀ (fuel n k : Nat), n < 16 ^ k → (toHexRev fuel n).length ≤ k := by
  intro fuel
  induction fuel with
  | zero => intro n k _; simp [toHexRev]
  | succ m ih =>
    intro n k hn
    by_cases h0 : n = 0
    · simp [toHexRev, h0]
    · have hk : k ≠ 0 := by
        rintro rfl
        simp only [pow_zero, Nat.lt_one_iff] at hn
        exact h0 hn
      obtain ⟨j, rfl⟩ := Nat.exists_eq_succ_of_ne_zero hk
      simp only [toHexRev, h0, ite_false, List.length_cons]
      have : n / 16 < 16 ^ j := by
        rw [Nat.div_lt_iff_lt_mul (by norm_num : 0 < 16)]
        calc n < 16 ^ (j + 1) := hn
        _ = 16 ^ j * 16 := by rw [pow_succ]
      exact Nat.succ_le_succ (ih (n / 16) j this)

theorem sprintf04x_length {n : Nat} (hn : n < 65536) : (sprintf04x n).length = 4 := by
  have hlen : (hexStr n).length ≤ 4 := by
    by_cases h0 : n = 0
    · simp [hexStr, h0]
    · simp only [hexStr, h0, ite_false, List.length_reverse]
      exact toHexRev_length_le n n 4 (by norm_num at hn ⊢; omega)
  simp only [sprintf04x, List.length_append, List.length_replicate]
  omega

theorem parseHex4_sprintf04x {n : Nat} (hn : n < 65536) : parseHex4 (sprintf04x n) = some n := by
  rw [parseHex4, if_pos (sprintf04x_length hn)]
  by_cases h0 : n = 0
  · subst h0
    decide
  · simp only [sprintf04x, hexStr, h0, ite_false]
    rw [parseHexAcc_replicate_zero]
    rw [parseHexAcc_toHexRev n n 0 (le_refl n)]
    simp

/-- Amended packet-line round trip: decoding the encoding of `s` yields
the body `s ++ "\n"` (the framing newline is part of the decoded body)
and consumes the whole frame; stripping the trailing newline recovers
`s` exactly. -/
theorem decode_writeLineBytes {s : GoStr} (hlen : s.length + 5 < 65536) :
    decodePktLine (writeLineBytes s) = some (.line (s ++ ['\n']) []) := by
  have hn : 4 + s.length + 1 < 65536 := by omega
  have hplen : (sprintf04x (4 + s.length + 1)).length = 4 := sprintf04x_length hn
  have htake : (writeLineBytes s).take 4 = sprintf04x (4 + s.length + 1) := by
    have h := List.take_left (sprintf04x (4 + s.length + 1)) (s ++ ['\n'])
    rw [hplen] at h
    rw [writeLineBytes, List.append_assoc]
    exact h
  have hdrop : (writeLineBytes s).drop 4 = s ++ ['\n'] := by
    have h := List.drop_left (sprintf04x (4 + s.length + 1)) (s ++ ['\n'])
    rw [hplen] at h
    rw [writeLineBytes, List.append_assoc]
    exact h
  rw [decodePktLine, htake, parseHex4_sprintf04x hn]
  have h0 : ¬ (4 + s.length + 1 = 0) := by omega
  have h4 : ¬ (4 + s.length + 1 < 4) := by omega
  have harith : 4 + s.length + 1 - 4 = s.length + 1 := by omega
  simp only [h0, h4, if_false, ite_false, hdrop, harith]
  have hfull : (s ++ ['\n']).length = s.length + 1 := by simp
  rw [← hfull, List.take_length, List.drop_length]
  simp

/-! ### Receive-pack validation lemmas -/

theorem isOk_error {ε α : Type} (e : ε) : (Except.error e : Except ε α).isOk = false := rfl

theorem isOk_ok {ε α : Type} (v : α) : (Except.ok v : Except ε α).isOk = true := rfl

theorem hexDecode_spec :
    ∀ (n : Nat) (s : GoStr), s.length ≤ n →
      (∀ b, hexDecode s = some b → s.length = 2 * b.length) ∧
      ((hexDecode s).isSome = true ↔ 2 ∣ s.length ∧ ∀ c ∈ s, (hexVal c).isSome = true) := by
  intro n
  induction n with
  | zero =>
    intro s hle
    rcases s with _ | ⟨c, cs⟩
    · exact ⟨fun b hb => by simp [hexDecode, Option.some.injEq] at hb; simp [← hb], by
        simp [hexDecode]⟩
    · simp at hle
  | succ m ih =>
    intro s hle
    rcases s with _ | ⟨c1, _ | ⟨c2, rest⟩⟩
    · exact ⟨fun b hb => by simp [hexDecode, Option.some.injEq] at hb; simp [← hb], by
        simp [hexDecode]⟩
    · refine ⟨fun b hb => by simp [hexDecode] at hb, ?_⟩
      simp [hexDecode, Nat.dvd_one]
    · have hrest : rest.length ≤ m := by
        simp only [List.length_cons] at hle
        omega
      obtain ⟨ihlen, ihsome⟩ := ih rest hrest
      constructor
      · intro b hb
        simp only [hexDecode] at hb
        rcases h1 : hexVal c1 with _ | v1 <;> rw [h1] at hb
        · exact absurd hb (by simp)
        · rcases h2 : hexVal c2 with _ | v2 <;> rw [h2] at hb
          · exact absurd hb (by simp)
          · rcases h3 : hexDecode rest with _ | bs <;> rw [h3] at hb
            · exact absurd hb (by simp)
            · simp only [Option.some.injEq] at hb
              subst hb
              simp only [List.length_cons]
              rw [ihlen bs h3]
              ring
      · have key : (hexDecode (c1 :: c2 :: rest)).isSome =
            ((hexVal c1).isSome && ((hexVal c2).isSome && (hexDecode rest).isSome)) := by
          rcases h1 : hexVal c1 with _ | v1 <;> rcases h2 : hexVal c2 with _ | v2 <;>
            rcases h3 : hexDecode rest with _ | bs <;> simp [hexDecode, h1, h2, h3]
        rw [key]
        simp only [Bool.and_eq_true, ihsome, List.length_cons, List.mem_cons]
        constructor
        · rintro ⟨h1, h2, hdvd, hall⟩
          refine ⟨by omega, ?_⟩
          intro c hc
          rcases hc with rfl | rfl | hc
          · exact h1
          · exact h2
          · exact hall c hc
        · rintro ⟨hdvd, hall⟩
          exact ⟨hall c1 (Or.inl rfl), hall c2 (Or.inr (Or.inl rfl)),
            by omega, fun c hc => hall c (Or.inr (Or.inr hc))⟩

theorem hexDecode_length {s : GoStr} {b : List Nat} (hb : hexDecode s = some b) :
    s.length = 2 * b.length :=
  (hexDecode_spec s.length s (le_refl _)).1 b hb

theorem hexDecode_isSome_iff (s : GoStr) :
    (hexDecode s).isSome = true ↔ 2 ∣ s.length ∧ ∀ c ∈ s, (hexVal c).isSome = true :=
  (hexDecode_spec s.length s (le_refl _)).2

/-- `parseHash` accepts exactly the strings of 40 hex characters (which
hex-decode to exactly 20 bytes). -/
theorem parseHash_ok_iff (s : GoStr) :
    (parseHash s).isOk = true ↔ s.length = 40 ∧ ∀ c ∈ s, (hexVal c).isSome = true := by
  unfold parseHash
  split
  next hd =>
    rw [isOk_error]
    simp only [Bool.false_eq_true, false_iff]
    rintro ⟨hl, hall⟩
    have : (hexDecode s).isSome = true := (hexDecode_isSome_iff s).2 ⟨⟨20, by omega⟩, hall⟩
    rw [hd] at this
    simp at this
  next b hd =>
    have hlen := hexDecode_length hd
    have hall : ∀ c ∈ s, (hexVal c).isSome = true := by
      have : (hexDecode s).isSome = true := by simp [hd]
      exact ((hexDecode_isSome_iff s).1 this).2
    by_cases hb : b.length = 20
    · rw [if_pos hb, isOk_ok]
      simp only [true_iff]
      exact ⟨by omega, hall⟩
    · rw [if_neg hb, isOk_error]
      simp only [Bool.false_eq_true, false_iff]
      rintro ⟨hl, _⟩
      omega

/-- `parseRefUpdateLine` accepts a line exactly when `SplitN(line," ",3)`
yields three fields, the first two fields parse as 20-byte hex hashes,
and the third field is NUL-free unless this is the first line. -/
theorem parseRefUpdateLine_ok_iff (f : Bool) (l : GoStr) :
    (parseRefUpdateLine f l).isOk = true ↔
      ∃ t0 t1 t2, splitN3sp l = [t0, t1, t2] ∧ (parseHash t0).isOk = true ∧
        (parseHash t1).isOk = true ∧
        (f = false → (splitOnChar nulChar t2).length = 1) := by
  unfold parseRefUpdateLine
  split
  next t0 t1 t2 heq =>
    dsimp only
    constructor
    · intro hok
      refine ⟨t0, t1, t2, heq, ?_⟩
      by_cases hnul : !f ∧ (splitOnChar nulChar t2).length ≠ 1
      · rw [if_pos hnul, isOk_error] at hok
        simp at hok
      · rw [if_neg hnul] at hok
        rcases h0 : parseHash t0 with e0 | v0 <;> rw [h0] at hok
        · rw [isOk_error] at hok
          simp at hok
        · rcases h1 : parseHash t1 with e1 | v1 <;> rw [h1] at hok
          · rw [isOk_error] at hok
            simp at hok
          · refine ⟨by rw [isOk_ok], by rw [isOk_ok], ?_⟩
            intro hf
            subst hf
            simp only [Bool.not_false, true_and] at hnul
            omega
    · rintro ⟨u0, u1, u2, hequ, hok0, hok1, hnul⟩
      rw [heq] at hequ
      obtain ⟨rfl, rfl, rfl⟩ : t0 = u0 ∧ t1 = u1 ∧ t2 = u2 := by
        simp only [List.cons.injEq] at hequ
        exact ⟨hequ.1, hequ.2.1, hequ.2.2.1⟩
      have hcond : ¬(!f ∧ (splitOnChar nulChar t2).length ≠ 1) := by
        rintro ⟨hf, hlen⟩
        rw [Bool.not_eq_true'] at hf
        exact hlen (hnul hf)
      rw [if_neg hcond]
      rcases h0 : parseHash t0 with e0 | v0
      · rw [h0, isOk_error] at hok0
        simp at hok0
      · rcases h1 : parseHash t1 with e1 | v1
        · rw [h1, isOk_error] at hok1
          simp at hok1
        · rw [isOk_ok]
  next hne =>
    rw [isOk_error]
    simp only [Bool.false_eq_true, false_iff]
    rintro ⟨t0, t1, t2, heq, _⟩
    exact hne t0 t1 t2 heq

/-- If the ref-update line loop rejects the request, `serveGitReceivePack`
fails the whole request before the pack body is decoded: for every
possible decoder the store is untouched and nothing is written on the
wire. -/
theorem serveGitReceivePack_parse_error {π ω ρ : Type}
    (gunzip : π → Except String π)
    (updateObjectStorage : ω → π → ω × Option String)
    (setReference : ρ → GoStr → GitHash → Except String ρ)
    (req : ReceivePackRequest π) (store : RepoStore ω ρ) (e : String)
    (henc : req.contentEncoding = [])
    (hparse : parseRefUpdates true req.lines = Except.error e) :
    serveGitReceivePack gunzip updateObjectStorage setReference req store =
      ⟨[], store, some e⟩ := by
  unfold serveGitReceivePack
  simp [henc, hparse]

/-! ### Advertiser lemmas -/

theorem hexDigitChar_ne_nul : ∀ d, d < 16 → hexDigitChar d ≠ nulChar := by decide

theorem nul_not_mem_hashHex (h : GitHash) : nulChar ∉ hashHex h := by
  intro hmem
  simp only [hashHex, List.mem_flatMap] at hmem
  obtain ⟨b, _, hb⟩ := hmem
  simp only [byteHex, List.mem_cons, List.not_mem_nil, or_false] at hb
  rcases hb with hb | hb
  · exact hexDigitChar_ne_nul _ (Nat.mod_lt _ (by norm_num)) hb.symm
  · exact hexDigitChar_ne_nul _ (Nat.mod_lt _ (by norm_num)) hb.symm

theorem nul_not_mem_advLine {n : GoStr} (h : GitHash) (hn : nulChar ∉ n) :
    nulChar ∉ hashHex h ++ ' ' :: n := by
  intro hmem
  rcases List.mem_append.1 hmem with hm | hm
  · exact nul_not_mem_hashHex h hm
  · rcases List.mem_cons.1 hm with hm | hm
    · exact absurd hm.symm (by decide)
    · exact hn hm

theorem advRefLoop_nil (resolve : GoStr → Option GitHash) (acc : List GoStr) :
    advRefLoop resolve acc [] = Except.ok acc := rfl

theorem advRefLoop_cons_hashRef (resolve : GoStr → Option GitHash) (acc : List GoStr)
    (n : GoStr) (h : GitHash) (rs : List GitReference) :
    advRefLoop resolve acc (.hashRef n h :: rs) =
      if isRemoteName n then advRefLoop resolve acc rs
      else if n = gs "HEAD" then advRefLoop resolve ((hashHex h ++ ' ' :: n) :: acc) rs
      else advRefLoop resolve (acc ++ [hashHex h ++ ' ' :: n]) rs := rfl

theorem advRefLoop_cons_symbolic (resolve : GoStr → Option GitHash) (acc : List GoStr)
    (n t : GoStr) (rs : List GitReference) :
    advRefLoop resolve acc (.symbolic n t :: rs) =
      if isRemoteName n then advRefLoop resolve acc rs
      else
        match resolve n with
        | none => advRefLoop resolve acc rs
        | some h =>
          if n = gs "HEAD" then advRefLoop resolve ((hashHex h ++ ' ' :: n) :: acc) rs
          else advRefLoop resolve (acc ++ [hashHex h ++ ' ' :: n]) rs := rfl

theorem advRefLoop_cons_invalid (resolve : GoStr → Option GitHash) (acc : List GoStr)
    (n : GoStr) (rs : List GitReference) :
    advRefLoop resolve acc (.invalid n :: rs) =
      if isRemoteName n then advRefLoop resolve acc rs
      else Except.error "unexpected reference encountered" := rfl

/-- Every advertisement line produced by the reference loop is NUL-free,
provided the reference names are. -/
theorem advRefLoop_no_nul (resolve : GoStr → Option GitHash) :
    ∀ (refs : List GitReference) (acc : List GoStr) (ls : List GoStr),
      advRefLoop resolve acc refs = Except.ok ls →
      (∀ r ∈ refs, nulChar ∉ refName r) →
      (∀ l ∈ acc, nulChar ∉ l) →
      ∀ l ∈ ls, nulChar ∉ l := by
  intro refs
  induction refs with
  | nil =>
    intro acc ls hok _ hacc
    rw [advRefLoop_nil, Except.ok.injEq] at hok
    subst hok
    exact hacc
  | cons r rs ih =>
    intro acc ls hok hrefs hacc
    have hrname : nulChar ∉ refName r := hrefs r (List.mem_cons_self r rs)
    have hrest : ∀ x ∈ rs, nulChar ∉ refName x :=
      fun x hx => hrefs x (List.mem_cons_of_mem r hx)
    rcases r with ⟨n, h⟩ | ⟨n, t⟩ | n
    · simp only [refName] at hrname
      rw [advRefLoop_cons_hashRef] at hok
      by_cases hrem : isRemoteName n
      · rw [if_pos hrem] at hok
        exact ih acc ls hok hrest hacc
      · rw [if_neg hrem] at hok
        have hline : nulChar ∉ hashHex h ++ ' ' :: n := nul_not_mem_advLine h hrname
        by_cases hhead : n = gs "HEAD"
        · rw [if_pos hhead] at hok
          refine ih _ ls hok hrest ?_
          intro l hl
          rcases List.mem_cons.1 hl with rfl | hl
          · exact hline
          · exact hacc l hl
        · rw [if_neg hhead] at hok
          refine ih _ ls hok hrest ?_
          intro l hl
          rcases List.mem_append.1 hl with hl | hl
          · exact hacc l hl
          · rw [List.mem_singleton] at hl
            subst hl
            exact hline
    · simp only [refName] at hrname
      rw [advRefLoop_cons_symbolic] at hok
      by_cases hrem : isRemoteName n
      · rw [if_pos hrem] at hok
        exact ih acc ls hok hrest hacc
      · rw [if_neg hrem] at hok
        rcases hres : resolve n with _ | h <;> rw [hres] at hok <;> dsimp only at hok
        · exact ih acc ls hok hrest hacc
        · have hline : nulChar ∉ hashHex h ++ ' ' :: n := nul_not_mem_advLine h hrname
          by_cases hhead : n = gs "HEAD"
          · rw [if_pos hhead] at hok
            refine ih _ ls hok hrest ?_
            intro l hl
            rcases List.mem_cons.1 hl with rfl | hl
            · exact hline
            · exact hacc l hl
          · rw [if_neg hhead] at hok
            refine ih _ ls hok hrest ?_
            intro l hl
            rcases List.mem_append.1 hl with hl | hl
            · exact hacc l hl
            · rw [List.mem_singleton] at hl
              subst hl
              exact hline
    · rw [advRefLoop_cons_invalid] at hok
      by_cases hrem : isRemoteName n
      · rw [if_pos hrem] at hok
        exact ih acc ls hok hrest hacc
      · rw [if_neg hrem] at hok
        simp at hok

theorem nul_not_mem_joinWith :
    ∀ (caps : List GoStr), (∀ c ∈ caps, nulChar ∉ c) → nulChar ∉ joinWith ' ' caps := by
  intro caps
  induction caps with
  | nil => intro _; simp [joinWith]
  | cons s rest ih =>
    intro hall
    rcases rest with _ | ⟨s2, rest2⟩
    · exact hall s (List.mem_singleton.2 rfl)
    · intro hmem
      rw [joinWith] at hmem
      rcases List.mem_append.1 hmem with hm | hm
      · exact hall s (List.mem_cons_self _ _) hm
      · rcases List.mem_cons.1 hm with hm | hm
        · exact absurd hm.symm (by decide)
        · exact ih (fun c hc => hall c (List.mem_cons_of_mem s hc)) hm

/-- Lines other than index 0 are emitted unchanged by `attachCaps`. -/
theorem attachCaps_get_tail (caps : List GoStr) (lines : List GoStr) :
    ∀ i, i ≠ 0 → (attachCaps caps lines).get? i = lines.get? i := by
  rcases lines with _ | ⟨l0, rest⟩
  · intro i _; rfl
  · intro i hi
    obtain ⟨j, rfl⟩ := Nat.exists_eq_succ_of_ne_zero hi
    rfl

/-- The capability-annotated first line carries exactly one NUL byte when
the ref line and capability strings are NUL-free. -/
theorem attachCaps_head_count (caps : List GoStr) (l0 : GoStr)
    (h0 : nulChar ∉ l0) (hcaps : ∀ c ∈ caps, nulChar ∉ c) :
    (l0 ++ nulChar :: joinWith ' ' caps).count nulChar = 1 := by
  rw [List.count_append, List.count_cons_self]
  rw [List.count_eq_zero_of_not_mem h0, List.count_eq_zero_of_not_mem (nul_not_mem_joinWith caps hcaps)]

/-! ### PacketLineWriter lemmas -/

theorem WriteLine_err {σ : Type} (wr : σ → GoStr → σ × Option String)
    (plw : PacketLineWriter σ) (s : GoStr) (e : String) (he : plw.err = some e) :
    WriteLine wr plw s = plw := by
  rcases plw with ⟨err, w⟩
  simp only at he
  subst he
  rfl

theorem WriteZeroPacketLine_err {σ : Type} (wr : σ → GoStr → σ × Option String)
    (plw : PacketLineWriter σ) (e : String) (he : plw.err = some e) :
    WriteZeroPacketLine wr plw = plw := by
  rcases plw with ⟨err, w⟩
  simp only at he
  subst he
  rfl

theorem runWriterOps_err {σ : Type} (wr : σ → GoStr → σ × Option String) :
    ∀ (ops : List WriterOp) (plw : PacketLineWriter σ) (e : String),
      plw.err = some e → runWriterOps wr ops plw = plw := by
  intro ops
  induction ops with
  | nil => intro plw e he; rfl
  | cons op ops ih =>
    intro plw e he
    rcases op with s | _
    · rw [runWriterOps, WriteLine_err wr plw s e he]
      exact ih plw e he
    · rw [runWriterOps, WriteZeroPacketLine_err wr plw e he]
      exact ih plw e he

theorem Flush_err {σ : Type} (fl : σ → σ × Option String)
    (plw : PacketLineWriter σ) (e : String) (he : plw.err = some e) :
    Flush fl plw = some e := by
  rcases plw with ⟨err, w⟩
  simp only at he
  subst he
  rfl

theorem Flush_ok {σ : Type} (fl : σ → σ × Option String)
    (plw : PacketLineWriter σ) (he : plw.err = none) :
    Flush fl plw = (fl plw.w).2 := by
  rcases plw with ⟨err, w⟩
  simp only at he
  subst he
  rfl

theorem WriteLine_first_error {σ : Type} (wr : σ → GoStr → σ × Option String)
    (plw : PacketLineWriter σ) (s : GoStr) (w1 : σ) (e : String)
    (he : plw.err = none) (hw : wr plw.w (sprintf04x (4 + s.length + 1)) = (w1, some e)) :
    WriteLine wr plw s = ⟨some e, w1⟩ := by
  rcases plw with ⟨err, w⟩
  simp only at he hw
  subst he
  unfold WriteLine
  simp only
  rw [hw]

/-! ### Handler equations -/

/-- The advertisement framing on success: service comment line, zero
marker, capability-annotated ref lines, final zero marker. -/
theorem serveGitInfoRefs_ok (resolve : GoStr → Option GitHash) (serviceName : GoStr)
    (refs : List GitReference) (caps : List GoStr) (ls : List GoStr)
    (hc : capabilitiesFor serviceName = Except.ok caps)
    (ha : advRefLoop resolve [] refs = Except.ok ls) :
    serveGitInfoRefs resolve serviceName refs =
      Except.ok ([.line (gs "# service=" ++ serviceName), .zero]
        ++ (attachCaps caps ls).map WireLine.line ++ [.zero]) := by
  unfold serveGitInfoRefs
  rw [hc]
  dsimp only
  rw [ha]

/-- The decode-failure path of `serveGitReceivePack`: the unpack error is
reported on the wire, the handler returns nil, reference storage is
untouched (only object storage keeps whatever the decoder left behind). -/
theorem serveGitReceivePack_unpack_error {π ω ρ : Type}
    (gunzip : π → Except String π)
    (updateObjectStorage : ω → π → ω × Option String)
    (setReference : ρ → GoStr → GitHash → Except String ρ)
    (req : ReceivePackRequest π) (store : RepoStore ω ρ)
    (us : List RefUpdate) (caps : List GoStr) (objects' : ω) (e : String)
    (henc : req.contentEncoding = [])
    (hparse : parseRefUpdates true req.lines = Except.ok (us, caps))
    (hdec : updateObjectStorage store.objects req.packBody = (objects', some e)) :
    serveGitReceivePack gunzip updateObjectStorage setReference req store =
      ⟨[.line (gs "unpack error parsing packfile")], ⟨objects', store.refs⟩, none⟩ := by
  unfold serveGitReceivePack
  simp [henc, hparse, hdec]

/-- The success path of `serveGitReceivePack`: `unpack ok` plus zero
marker on the wire, and every parsed ref update applied in order. -/
theorem serveGitReceivePack_ok {π ω ρ : Type}
    (gunzip : π → Except String π)
    (updateObjectStorage : ω → π → ω × Option String)
    (setReference : ρ → GoStr → GitHash → Except String ρ)
    (req : ReceivePackRequest π) (store : RepoStore ω ρ)
    (us : List RefUpdate) (caps : List GoStr) (objects' : ω)
    (henc : req.contentEncoding = [])
    (hparse : parseRefUpdates true req.lines = Except.ok (us, caps))
    (hdec : updateObjectStorage store.objects req.packBody = (objects', none)) :
    serveGitReceivePack gunzip updateObjectStorage setReference req store =
      ⟨[.line (gs "unpack ok"), .zero],
        ⟨objects', applyRefUpdates setReference store.refs us⟩, none⟩ := by
  unfold serveGitReceivePack
  simp [henc, hparse, hdec]

/-- The ref-update application never reads the `From` field: replacing
every `From` value changes nothing. -/
theorem applyRefUpdates_from_irrelevant {ρ : Type}
    (setReference : ρ → GoStr → GitHash → Except String ρ) (g : RefUpdate → GitHash) :
    ∀ (us : List RefUpdate) (refs : ρ),
      applyRefUpdates setReference refs (us.map fun u => ⟨g u, u.To, u.Ref⟩) =
        applyRefUpdates setReference refs us := by
  intro us
  induction us with
  | nil => intro refs; rfl
  | cons u us ih =>
    intro refs
    rw [List.map_cons, applyRefUpdates, applyRefUpdates]
    rcases hset : setReference refs u.Ref u.To with e | refs'
    · exact ih refs
    · exact ih refs'

/-- Applying two updates where the second fails leaves the first applied:
the failure is skipped, not rolled back. -/
theorem applyRefUpdates_second_fails {ρ : Type}
    (setReference : ρ → GoStr → GitHash → Except String ρ)
    (r0 r1 : ρ) (u1 u2 : RefUpdate) (e : String)
    (h1 : setReference r0 u1.Ref u1.To = Except.ok r1)
    (h2 : setReference r1 u2.Ref u2.To = Except.error e) :
    applyRefUpdates setReference r0 [u1, u2] = r1 := by
  rw [applyRefUpdates, h1]
  dsimp only
  rw [applyRefUpdates, h2]
  rfl

/-! ## Concrete fixtures for witnesses and counterexamples -/

/-- Two commits (`[1]`, `[2]`) sharing the tree `[5]`, which holds one
regular blob entry `[3]`. -/
def exSharedStore : ObjectStore :=
  [([1], .commit [5] []), ([2], .commit [5] [[1]]),
   ([5], .tree [⟨gs "f", .regular, [3]⟩]), ([3], .blob [65])]

/-- Two branches pointing at the two commits of `exSharedStore`. -/
def exSharedRefs : List GitReference :=
  [.hashRef (gs "refs/heads/a") [1], .hashRef (gs "refs/heads/b") [2]]

/-- A commit whose tree holds a submodule entry `[9]` (present nowhere
else) and a subdirectory entry `[4]`. -/
def exSubStore : ObjectStore :=
  [([1], .commit [2] []), ([2], .tree [⟨gs "sub", .submodule, [9]⟩, ⟨gs "d", .dir, [4]⟩]),
   ([4], .tree [])]

/-- A single branch ref into `exSubStore`. -/
def exSubRefs : List GitReference := [.hashRef (gs "refs/heads/main") [1]]

/-- A store with a commit `[1]` → tree `[2]` → regular blob entry `[3]`. -/
def exBlobStore : ObjectStore :=
  [([1], .commit [2] []), ([2], .tree [⟨gs "README.md", .regular, [3]⟩]), ([3], .blob [65])]

/-- A resolvable symbolic `HEAD` alongside the direct branch reference it
points to. -/
def exHeadRefs : List GitReference :=
  [.symbolic (gs "HEAD") (gs "refs/heads/main"), .hashRef (gs "refs/heads/main") [7]]

/-- The store behind `exHeadRefs`. -/
def exHeadStore : ObjectStore := [([7], .commit [8] []), ([8], .tree [])]

/-! ## Claims -/

/-- Claim C1: for every walk invocation (a fresh `objectWalker`), each
object hash is fetched from the store at most once: `walkObjectTree`
returns immediately (state unchanged, no error) when the hash is already
in the seen-set; across a whole `walkAllRefs` run from a fresh walker the
trace of `GetObject` calls is duplicate-free; and in the concrete store
where two different commits reference the tree `[5]`, that tree is
fetched exactly once. -/
theorem claim_C1_fetch_at_most_once :
    (∀ (store : ObjectStore) (fuel : Nat) (st : WalkState) (h : GitHash),
        h ∈ st.seen → walkObjectTree store fuel st h = (st, none)) ∧
    (∀ (store : ObjectStore) (fuel : Nat) (refs : List GitReference),
        ((walkAllRefs store fuel refs).1.fetched).Nodup) ∧
    (walkAllRefs exSharedStore 9 exSharedRefs).1.fetched.count [5] = 1 := by
  refine ⟨fun store fuel st h hseen => walkObjectTree_seen hseen, ?_, by decide⟩
  intro store fuel refs
  obtain ⟨-, F, hf, hnd, -⟩ := walkAllRefsFrom_walkStep store fuel refs walkInit
  have heq : (walkAllRefs store fuel refs).1.fetched = F := by
    show (walkAllRefsFrom store fuel refs walkInit).1.fetched = F
    rw [hf]
    rfl
  rw [heq]
  exact hnd

/-- Claim C1 witness: a hash already in the seen-set is returned
immediately with the state unchanged. -/
theorem claim_C1_witness :
    walkObjectTree exSharedStore 5 ⟨[[1]], []⟩ [1] = (⟨[[1]], []⟩, none) :=
  claim_C1_fetch_at_most_once.1 exSharedStore 5 ⟨[[1]], []⟩ [1] (by decide)

/-- Claim C2: tree entries with regular, executable or symlink mode are
added to the seen-set directly (no fetch, no recursion); submodule
entries are skipped entirely; directory entries always recurse via
`walkObjectTree`; consequently every hash in the reachable set is either
a walk root or a non-submodule child of a stored object — so a hash that
occurs only as a submodule entry (here `[9]`) is never present, while a
directory entry's subtree (here `[4]`) is fetched. -/
theorem claim_C2_tree_entry_modes :
    (∀ (store : ObjectStore) (fuel : Nat) (st : WalkState) (e : GitTreeEntry)
        (es : List GitTreeEntry),
        e.mode = .regular ∨ e.mode = .executable ∨ e.mode = .symlink →
        walkTreeEntries store fuel st (e :: es) =
          walkTreeEntries store fuel (addSeen st e.hash) es) ∧
    (∀ (store : ObjectStore) (fuel : Nat) (st : WalkState) (e : GitTreeEntry)
        (es : List GitTreeEntry),
        e.mode = .submodule →
        walkTreeEntries store fuel st (e :: es) = walkTreeEntries store fuel st es) ∧
    (∀ (store : ObjectStore) (fuel : Nat) (st : WalkState) (e : GitTreeEntry)
        (es : List GitTreeEntry),
        e.mode = .dir →
        walkTreeEntries store fuel st (e :: es) =
          match walkObjectTree store fuel st e.hash with
          | (st', some err) => (st', some err)
          | (st', none) => walkTreeEntries store fuel st' es) ∧
    (∀ (store : ObjectStore) (fuel : Nat) (refs : List GitReference) (y : GitHash),
        y ∈ (walkAllRefs store fuel refs).1.seen → y ∈ codeRoots refs ∨ IsChild store y) ∧
    ([9] ∉ (walkAllRefs exSubStore 9 exSubRefs).1.seen ∧
      [4] ∈ (walkAllRefs exSubStore 9 exSubRefs).1.fetched) := by
  refine ⟨fun _ _ _ _ _ h => walkTreeEntries_cons_add h,
    fun _ _ _ _ _ h => walkTreeEntries_cons_submodule h,
    fun _ _ _ _ _ h => walkTreeEntries_cons_recurse (Or.inl h), ?_, by decide⟩
  intro store fuel refs y hy
  have := walkAllRefsFrom_seen_sources store fuel refs walkInit y hy
  rcases this with h1 | h2 | h3
  · exact absurd h1 (by simp [walkInit])
  · exact Or.inl h2
  · exact Or.inr h3

/-- Claim C2 witness: the three mode equations and the seen-source bound
applied at concrete inputs. -/
theorem claim_C2_witness :
    walkTreeEntries exSubStore 3 walkInit [⟨gs "f", GitFileMode.regular, [3]⟩] =
      walkTreeEntries exSubStore 3 (addSeen walkInit [3]) [] ∧
    walkTreeEntries exSubStore 3 walkInit [⟨gs "s", GitFileMode.submodule, [9]⟩] =
      walkTreeEntries exSubStore 3 walkInit [] :=
  ⟨claim_C2_tree_entry_modes.1 exSubStore 3 walkInit ⟨gs "f", .regular, [3]⟩ [] (Or.inl rfl),
   claim_C2_tree_entry_modes.2.1 exSubStore 3 walkInit ⟨gs "s", .submodule, [9]⟩ [] rfl⟩

/-- Claim C3 counterexample: `walkAllRefs` never resolves symbolic
references.  On a store holding a resolvable symbolic `HEAD` and the
direct branch it points to, the hashes on which `walkObjectTree` is
invoked (`codeRoots`, proved exhaustive by the amended theorem) omit the
resolved hash of `HEAD`, whereas the claimed behaviour (`specRoots`,
modelled from the spec) would contribute one root per resolved
reference. -/
theorem claim_C3_counterexample :
    codeRoots exHeadRefs ≠ specRoots exHeadRefs 2 ∧
    codeRoots exHeadRefs = [[7]] ∧ specRoots exHeadRefs 2 = [[7], [7]] := by
  decide

/-- Claim C3 (amended): `walkAllRefs` iterates the references in order,
skipping every reference that is not a direct hash reference — symbolic
references are skipped without resolution or logging — and calls
`walkObjectTree` exactly on the hashes of the direct hash references;
on the concrete HEAD store the walk therefore equals the walk over the
direct branch reference alone (the reachable set is unaffected because
the resolved chain ends in that direct reference). -/
theorem claim_C3_skip_symbolic_refs :
    (∀ (store : ObjectStore) (fuel : Nat) (refs : List GitReference) (st : WalkState),
        walkAllRefsFrom store fuel refs st = walkRootList store fuel (codeRoots refs) st) ∧
    walkAllRefs exHeadStore 9 exHeadRefs =
      walkAllRefs exHeadStore 9 [.hashRef (gs "refs/heads/main") [7]] :=
  ⟨fun store fuel refs st => walkAllRefsFrom_eq_rootList store fuel refs st, by decide⟩

/-- Claim C4 counterexample: decoding the encoding of `"NAK"` yields the
body `"NAK\n"` — the framing newline is part of the decoded body — not
`"NAK"` itself. -/
theorem claim_C4_counterexample :
    decodePktLine (writeLineBytes (gs "NAK")) ≠ some (.line (gs "NAK") []) ∧
    decodePktLine (writeLineBytes (gs "NAK")) = some (.line (gs "NAK\n") []) := by
  decide

/-- Claim C4 (amended): `WriteLine` encodes a line `s` as a 4-hex-digit
length prefix (counting the 4 digits, the line, and the trailing
newline), then `s`, then a newline; for every `s` without newlines and
short enough that the 4-digit length does not overflow (length at most
65530), decoding this encoding yields the body `s` followed by exactly
the framing newline and consumes the whole frame, and stripping that
trailing newline recovers `s` exactly. -/
theorem claim_C4_roundtrip :
    ∀ s : GoStr, '\n' ∉ s → s.length ≤ 65530 →
      decodePktLine (writeLineBytes s) = some (.line (s ++ ['\n']) []) ∧
      (s ++ ['\n']).dropLast = s := by
  intro s _ hlen
  exact ⟨decode_writeLineBytes (by omega), List.dropLast_concat⟩

/-- Claim C4 witness: the amended round trip at the line `"NAK"`. -/
theorem claim_C4_witness :
    decodePktLine (writeLineBytes (gs "NAK")) = some (.line (gs "NAK" ++ ['\n']) []) ∧
    (gs "NAK" ++ ['\n']).dropLast = gs "NAK" :=
  claim_C4_roundtrip (gs "NAK") (by decide) (by decide)

/-- Claim C10: calling `walkObjectTree` on a hash whose stored object is
a blob fails with the unknown-object error (blobs fall into the default
arm of the type switch), even though Blob is a valid object kind; a
direct reference at a blob therefore fails the whole walk, while the
same blob reached through a tree entry is added to the seen-set without
ever being fetched. -/
theorem claim_C10_blob_walk_error :
    (∀ (store : ObjectStore) (fuel : Nat) (st : WalkState) (h : GitHash) (data : List Nat),
        getObject store h = some (.blob data) → h ∉ st.seen →
        walkObjectTree store (fuel + 1) st h = (markAndTrace st h, some "unknown object")) ∧
    (walkAllRefs exBlobStore 9 [.hashRef (gs "refs/heads/b") [3]]).2 = some "unknown object" ∧
    ((walkAllRefs exBlobStore 9 [.hashRef (gs "refs/heads/main") [1]]).2 = none ∧
      [3] ∈ (walkAllRefs exBlobStore 9 [.hashRef (gs "refs/heads/main") [1]]).1.seen ∧
      [3] ∉ (walkAllRefs exBlobStore 9 [.hashRef (gs "refs/heads/main") [1]]).1.fetched) := by
  exact ⟨fun store fuel st h data hobj hns => walkObjectTree_blob hns hobj, by decide, by decide⟩

/-- Claim C10 witness: walking the blob hash `[3]` of the concrete store
directly produces the unknown-object error. -/
theorem claim_C10_witness :
    walkObjectTree exBlobStore 9 walkInit [3] =
      (markAndTrace walkInit [3], some "unknown object") :=
  claim_C10_blob_walk_error.1 exBlobStore 8 walkInit [3] [65] (by decide) (by decide)

/-- An underlying writer for witnesses: counts writes, never fails. -/
def exWrOk : Nat → GoStr → Nat × Option String := fun n _ => (n + 1, none)

/-- An underlying writer that fails every write. -/
def exWrFail : Nat → GoStr → Nat × Option String := fun n _ => (n, some "broken pipe")

/-- An underlying flush for witnesses. -/
def exFl : Nat → Nat × Option String := fun n => (n, none)

/-- Claim C5: `WriteLine` and `WriteZeroPacketLine` never raise an error
(they are total state transformers); once an error is recorded every
subsequent write operation is a strict no-op, `Flush` returns the first
recorded error, `Flush` with no recorded error flushes the underlying
buffer and returns its result, and the first failing underlying write is
the error that gets recorded (skipping the remaining writes of the
line). -/
theorem claim_C5_deferred_errors :
    (∀ (σ : Type) (wr : σ → GoStr → σ × Option String) (ops : List WriterOp)
        (plw : PacketLineWriter σ) (e : String),
        plw.err = some e → runWriterOps wr ops plw = plw) ∧
    (∀ (σ : Type) (fl : σ → σ × Option String) (plw : PacketLineWriter σ) (e : String),
        plw.err = some e → Flush fl plw = some e) ∧
    (∀ (σ : Type) (fl : σ → σ × Option String) (plw : PacketLineWriter σ),
        plw.err = none → Flush fl plw = (fl plw.w).2) ∧
    (∀ (σ : Type) (wr : σ → GoStr → σ × Option String) (plw : PacketLineWriter σ)
        (s : GoStr) (w1 : σ) (e : String),
        plw.err = none → wr plw.w (sprintf04x (4 + s.length + 1)) = (w1, some e) →
        WriteLine wr plw s = ⟨some e, w1⟩) :=
  ⟨fun _ wr ops plw e he => runWriterOps_err wr ops plw e he,
   fun _ fl plw e he => Flush_err fl plw e he,
   fun _ fl plw he => Flush_ok fl plw he,
   fun _ wr plw s w1 e he hw => WriteLine_first_error wr plw s w1 e he hw⟩

/-- Claim C5 witness: the four properties at concrete writers. -/
theorem claim_C5_witness :
    runWriterOps exWrOk [.writeLine (gs "NAK"), .writeZero] ⟨some "stuck", 0⟩ =
      ⟨some "stuck", 0⟩ ∧
    Flush exFl ⟨some "stuck", 0⟩ = some "stuck" ∧
    Flush exFl ⟨none, 3⟩ = (exFl 3).2 ∧
    WriteLine exWrFail ⟨none, 2⟩ (gs "NAK") = ⟨some "broken pipe", 2⟩ :=
  ⟨claim_C5_deferred_errors.1 Nat exWrOk [.writeLine (gs "NAK"), .writeZero]
      ⟨some "stuck", 0⟩ "stuck" rfl,
   claim_C5_deferred_errors.2.1 Nat exFl ⟨some "stuck", 0⟩ "stuck" rfl,
   claim_C5_deferred_errors.2.2.1 Nat exFl ⟨none, 3⟩ rfl,
   claim_C5_deferred_errors.2.2.2 Nat exWrFail ⟨none, 2⟩ (gs "NAK") 2 "broken pipe" rfl rfl⟩

/-- Reference storage for witnesses: an association list of name/hash
pairs updated by prepending; the name `refs/bad` is rejected. -/
def exSetRef (refs : List (GoStr × GitHash)) (n : GoStr) (h : GitHash) :
    Except String (List (GoStr × GitHash)) :=
  if n = gs "refs/bad" then Except.error "invalid reference name" else Except.ok ((n, h) :: refs)

/-- A gunzip stub for witnesses (never invoked: encoding is empty). -/
def exGunzip : Nat → Except String Nat := fun b => Except.ok b

/-- A pack decoder that succeeds, bumping the object state. -/
def exUpdOk : Nat → Nat → Nat × Option String := fun o _ => (o + 1, none)

/-- A pack decoder that fails after partially writing objects. -/
def exUpdFail : Nat → Nat → Nat × Option String := fun o _ => (o + 1, some "bad magic")

/-- A receive-pack request with one valid ref-update line. -/
def exReqOne : ReceivePackRequest Nat :=
  ⟨[], [gs "0000000000000000000000000000000000000000 1111111111111111111111111111111111111111 refs/heads/main",
        gs ""], 0⟩

/-- A receive-pack request whose second ref-update line names the
rejected reference `refs/bad`. -/
def exReqTwo : ReceivePackRequest Nat :=
  ⟨[], [gs "0000000000000000000000000000000000000000 1111111111111111111111111111111111111111 refs/heads/main",
        gs "0000000000000000000000000000000000000000 2222222222222222222222222222222222222222 refs/bad",
        gs ""], 0⟩

/-- A receive-pack request with a malformed ref-update line. -/
def exReqBad : ReceivePackRequest Nat := ⟨[], [gs "zz"], 0⟩

/-- An initial store for the receive-pack witnesses. -/
def exRepoStore : RepoStore Nat (List (GoStr × GitHash)) :=
  ⟨0, [(gs "refs/heads/main", List.replicate 20 9)]⟩

/-- Claim C6: when the pack decoder fails, `serveGitReceivePack` writes
exactly the `unpack error parsing packfile` line on the wire, returns
nil, and applies none of the parsed ref updates — the reference storage
is returned unchanged (whatever objects the decoder already wrote
remain, but no reference moves), for every reference-update function. -/
theorem claim_C6_unpack_error_no_ref_updates :
    ∀ (π ω ρ : Type) (gunzip : π → Except String π)
      (updateObjectStorage : ω → π → ω × Option String)
      (setReference : ρ → GoStr → GitHash → Except String ρ)
      (req : ReceivePackRequest π) (store : RepoStore ω ρ)
      (us : List RefUpdate) (caps : List GoStr) (objects' : ω) (e : String),
      req.contentEncoding = [] →
      parseRefUpdates true req.lines = Except.ok (us, caps) →
      updateObjectStorage store.objects req.packBody = (objects', some e) →
      serveGitReceivePack gunzip updateObjectStorage setReference req store =
        ⟨[.line (gs "unpack error parsing packfile")], ⟨objects', store.refs⟩, none⟩ :=
  fun _ _ _ gunzip upd setRef req store us caps objects' e henc hparse hdec =>
    serveGitReceivePack_unpack_error gunzip upd setRef req store us caps objects' e
      henc hparse hdec

/-- Claim C6 witness: a failing decode on a parsed one-update request
reports the unpack error and leaves the reference storage untouched. -/
theorem claim_C6_witness :
    serveGitReceivePack exGunzip exUpdFail exSetRef exReqOne exRepoStore =
      ⟨[.line (gs "unpack error parsing packfile")], ⟨1, exRepoStore.refs⟩, none⟩ :=
  claim_C6_unpack_error_no_ref_updates Nat Nat (List (GoStr × GitHash))
    exGunzip exUpdFail exSetRef exReqOne exRepoStore
    [⟨List.replicate 20 0, List.replicate 20 17, gs "refs/heads/main"⟩] [] 1 "bad magic"
    rfl rfl rfl

/-- Claim C7: after a successful decode the parsed ref updates are
applied independently: the `From` field is never read (replacing every
`From` value changes nothing), each named reference is overwritten to
the update's `To` hash, and when the second of two updates fails the
first remains applied in the resulting store. -/
theorem claim_C7_updates_applied_independently :
    (∀ (ρ : Type) (setReference : ρ → GoStr → GitHash → Except String ρ)
        (g : RefUpdate → GitHash) (us : List RefUpdate) (refs : ρ),
        applyRefUpdates setReference refs (us.map fun u => ⟨g u, u.To, u.Ref⟩) =
          applyRefUpdates setReference refs us) ∧
    (∀ (π ω ρ : Type) (gunzip : π → Except String π)
        (updateObjectStorage : ω → π → ω × Option String)
        (setReference : ρ → GoStr → GitHash → Except String ρ)
        (req : ReceivePackRequest π) (store : RepoStore ω ρ)
        (u1 u2 : RefUpdate) (caps : List GoStr) (objects' : ω) (r1 : ρ) (e : String),
        req.contentEncoding = [] →
        parseRefUpdates true req.lines = Except.ok ([u1, u2], caps) →
        updateObjectStorage store.objects req.packBody = (objects', none) →
        setReference store.refs u1.Ref u1.To = Except.ok r1 →
        setReference r1 u2.Ref u2.To = Except.error e →
        (serveGitReceivePack gunzip updateObjectStorage setReference req store).store.refs
          = r1) := by
  refine ⟨fun _ setRef g us refs => applyRefUpdates_from_irrelevant setRef g us refs, ?_⟩
  intro π ω ρ gunzip upd setRef req store u1 u2 caps objects' r1 e henc hparse hdec h1 h2
  rw [serveGitReceivePack_ok gunzip upd setRef req store [u1, u2] caps objects'
    henc hparse hdec]
  exact applyRefUpdates_second_fails setRef store.refs r1 u1 u2 e h1 h2

/-- Claim C7 witness: with two parsed updates where the second names the
rejected reference, the first update is observable in the resulting
reference storage. -/
theorem claim_C7_witness :
    (serveGitReceivePack exGunzip exUpdOk exSetRef exReqTwo exRepoStore).store.refs =
      (gs "refs/heads/main", List.replicate 20 17) :: exRepoStore.refs :=
  claim_C7_updates_applied_independently.2 Nat Nat (List (GoStr × GitHash))
    exGunzip exUpdOk exSetRef exReqTwo exRepoStore
    ⟨List.replicate 20 0, List.replicate 20 17, gs "refs/heads/main"⟩
    ⟨List.replicate 20 0, List.replicate 20 34, gs "refs/bad"⟩
    [] 1 ((gs "refs/heads/main", List.replicate 20 17) :: exRepoStore.refs)
    "invalid reference name" rfl rfl rfl rfl rfl

/-- The resolver used by the advertiser witness. -/
def exResolve : GoStr → Option GitHash := fun _ => some (List.replicate 20 7)

/-- References advertised in the witness: a resolvable symbolic `HEAD`
before the branch it points to. -/
def exAdvRefs : List GitReference :=
  [.symbolic (gs "HEAD") (gs "refs/heads/main"),
   .hashRef (gs "refs/heads/main") (List.replicate 20 7)]

/-- The ref lines the witness advertisement produces. -/
def exAdvLines : List GoStr :=
  [hashHex (List.replicate 20 7) ++ ' ' :: gs "HEAD",
   hashHex (List.replicate 20 7) ++ ' ' :: gs "refs/heads/main"]

/-- Claim C8: the advertisement's capability string is
`symref=HEAD:refs/heads/main` for upload-pack and empty for
receive-pack; it is appended only to the ref line at index 0, separated
by a single NUL byte (the count of NUL bytes on that line is exactly 1
when the inputs are NUL-free); every other line is emitted unchanged and
carries no NUL; and the full response is the service comment line, a
zero marker, the annotated ref lines, and a final zero marker. -/
theorem claim_C8_capabilities_first_line_only :
    (capabilitiesFor (gs "git-upload-pack") =
        Except.ok [gs "symref=HEAD:refs/heads/main"] ∧
      capabilitiesFor (gs "git-receive-pack") = Except.ok []) ∧
    (∀ (caps : List GoStr) (l0 : GoStr) (rest : List GoStr),
        attachCaps caps (l0 :: rest) = (l0 ++ nulChar :: joinWith ' ' caps) :: rest) ∧
    (∀ (caps : List GoStr) (lines : List GoStr) (i : Nat),
        i ≠ 0 → (attachCaps caps lines).get? i = lines.get? i) ∧
    (∀ (caps : List GoStr) (l0 : GoStr), nulChar ∉ l0 → (∀ c ∈ caps, nulChar ∉ c) →
        (l0 ++ nulChar :: joinWith ' ' caps).count nulChar = 1) ∧
    (∀ (resolve : GoStr → Option GitHash) (refs : List GitReference) (ls : List GoStr)
        (caps : List GoStr) (i : Nat) (l : GoStr),
        advRefLoop resolve [] refs = Except.ok ls →
        (∀ r ∈ refs, nulChar ∉ refName r) →
        i ≠ 0 → (attachCaps caps ls).get? i = some l → nulChar ∉ l) ∧
    (∀ (resolve : GoStr → Option GitHash) (serviceName : GoStr)
        (refs : List GitReference) (caps : List GoStr) (ls : List GoStr),
        capabilitiesFor serviceName = Except.ok caps →
        advRefLoop resolve [] refs = Except.ok ls →
        serveGitInfoRefs resolve serviceName refs =
          Except.ok ([.line (gs "# service=" ++ serviceName), .zero]
            ++ (attachCaps caps ls).map WireLine.line ++ [.zero])) := by
  refine ⟨⟨rfl, rfl⟩, fun _ _ _ => rfl,
    fun caps lines i hi => attachCaps_get_tail caps lines i hi,
    fun caps l0 h0 hcaps => attachCaps_head_count caps l0 h0 hcaps, ?_,
    fun resolve svc refs caps ls hc ha => serveGitInfoRefs_ok resolve svc refs caps ls hc ha⟩
  intro resolve refs ls caps i l hok hnames hi hget
  rw [attachCaps_get_tail caps ls i hi] at hget
  exact advRefLoop_no_nul resolve refs [] ls hok hnames (by simp) l (List.get?_mem hget)

/-- Claim C8 witness: the receive-pack advertisement over a concrete
store — empty capability string after the NUL on line 0, every other
line NUL-free, full framing as stated. -/
theorem claim_C8_witness :
    serveGitInfoRefs exResolve (gs "git-receive-pack") exAdvRefs =
      Except.ok ([.line (gs "# service=" ++ gs "git-receive-pack"), .zero]
        ++ (attachCaps [] exAdvLines).map WireLine.line ++ [.zero]) ∧
    (attachCaps [] exAdvLines).get? 1 = exAdvLines.get? 1 :=
  ⟨claim_C8_capabilities_first_line_only.2.2.2.2.2 exResolve (gs "git-receive-pack")
      exAdvRefs [] exAdvLines rfl rfl,
   claim_C8_capabilities_first_line_only.2.2.1 [] exAdvLines 1 (by decide)⟩

/-- Claim C9: a receive-pack ref-update line is accepted exactly when
`SplitN(line, " ", 3)` yields three fields, the first two fields each
hex-decode to exactly 20 bytes (`parseHash` accepts exactly the 40-hex-
character strings), and the third field contains a NUL-separated segment
only on the first line; any violation fails the whole request before the
pack body is decoded — for every possible decoder the store is returned
untouched and nothing is written on the wire. -/
theorem claim_C9_line_validation :
    (∀ (f : Bool) (l : GoStr),
        (parseRefUpdateLine f l).isOk = true ↔
          ∃ t0 t1 t2, splitN3sp l = [t0, t1, t2] ∧ (parseHash t0).isOk = true ∧
            (parseHash t1).isOk = true ∧
            (f = false → (splitOnChar nulChar t2).length = 1)) ∧
    (∀ s : GoStr, (parseHash s).isOk = true ↔
        s.length = 40 ∧ ∀ c ∈ s, (hexVal c).isSome = true) ∧
    (∀ (π ω ρ : Type) (gunzip : π → Except String π)
        (updateObjectStorage : ω → π → ω × Option String)
        (setReference : ρ → GoStr → GitHash → Except String ρ)
        (req : ReceivePackRequest π) (store : RepoStore ω ρ) (e : String),
        req.contentEncoding = [] →
        parseRefUpdates true req.lines = Except.error e →
        serveGitReceivePack gunzip updateObjectStorage setReference req store =
          ⟨[], store, some e⟩) :=
  ⟨fun f l => parseRefUpdateLine_ok_iff f l,
   fun s => parseHash_ok_iff s,
   fun _ _ _ gunzip upd setRef req store e henc hparse =>
     serveGitReceivePack_parse_error gunzip upd setRef req store e henc hparse⟩

/-- Claim C9 witness: a malformed line (`"zz"`, no spaces) fails the
whole request before any decoding, with the store untouched. -/
theorem claim_C9_witness :
    serveGitReceivePack exGunzip exUpdOk exSetRef exReqBad exRepoStore =
      ⟨[], exRepoStore, some "unexpected line (spaces)"⟩ :=
  claim_C9_line_validation.2.2 Nat Nat (List (GoStr × GitHash))
    exGunzip exUpdOk exSetRef exReqBad exRepoStore "unexpected line (spaces)"
    rfl rfl

end GitTesting
